import Mathlib

/-!
Shallow embedding of the two-pass assembler (C sources: `second_pass.c`,
`cleanup.c`, `functions.c`, `words.c`, `main.c` and their headers), together
with theorems settling the frozen claims about it.

Modelling conventions:
* C strings are `List Char`; the terminating NUL is represented by the end of
  the list.  ASCII classification (`isspace`, `isalpha`, ...) is embedded for
  the C locale.
* C `long`/`int` are `Int` (overflow of `long` is not modelled; every value the
  claims touch stays far below the 64-bit range, and `strtol`'s clamping can
  only turn a huge literal into another out-of-range one, which all callers
  reject).  Bit-field members (`value : 8`, `are : 2`) are `Nat` reduced by the
  corresponding mask at each assignment, as in the source.
* Each translation unit owns a `static diag g_diag` counter.  The reporter
  itself (`diag.c`) is not among the sources; per the specification (sections
  6.3 and 9) an error call appends to the counter of the translation unit that
  made it, and nothing else.  `Diag` therefore carries one error-code list per
  first-pass-side translation unit; the `second_pass.c` unit's counter is
  threaded separately.
* File I/O always succeeds in the model (open/rename failures and path-length
  checks are resource errors out of the claims' scope); a written file is the
  `List Char` of its contents, `none` meaning the file was not produced.
-/

/-! ### ASCII character helpers (C `<ctype.h>`, C locale) -/

def c_isspace (c : Char) : Bool :=
  c = ' ' ∨ c = '\t' ∨ c = '\n' ∨ c = Char.ofNat 11 ∨ c = Char.ofNat 12 ∨ c = '\r'

def c_isdigit (c : Char) : Bool := '0' ≤ c ∧ c ≤ '9'

def c_isalpha (c : Char) : Bool := ('a' ≤ c ∧ c ≤ 'z') ∨ ('A' ≤ c ∧ c ≤ 'Z')

def c_isalnum (c : Char) : Bool := c_isalpha c ∨ c_isdigit c

def c_tolower (c : Char) : Char :=
  if 'A' ≤ c ∧ c ≤ 'Z' then Char.ofNat (c.toNat + 32) else c

/-- C cast `(unsigned)x` of a `long`/`int` value (32-bit unsigned wrap). -/
def uCast (i : Int) : Nat := (i.emod 4294967296).toNat

/-- Assignment to the `unsigned int value : 8` bit-field of `machine_word`. -/
def uCast8 (i : Int) : Nat := (i.emod 256).toNat

/-! ### Diagnostics

Error codes of the reporter calls reachable in the embedded functions.
`diag.c` itself is absent from the sources; per spec section 6.3 an error call
appends one coded entry and advances the counter of the calling translation
unit's `static diag g_diag`. -/

inductive ECode
  | AS001 | AS002 | AS003 | AS004
  | AS011 | AS012 | AS013 | AS014 | AS015 | AS016
  | AS020 | AS022 | AS023 | AS024
  | AS040 | AS050
  | AS110 | AS111 | AS112 | AS113 | AS114
  | AS301 | AS302 | AS303 | AS304 | AS305 | AS306 | AS307 | AS308 | AS309
  | AS310 | AS311 | AS312 | AS313 | AS314
  | AS320 | AS321
  | AS_SUM_GE_LIMIT
  | AS_OB_TOO_LONG
  deriving DecidableEq

/-- One error-code list per first-pass-side translation unit
(`cleanup.c`+first-pass driver, `functions.c`, `opmodes.c`, `words.c`).
The `second_pass.c` unit's own counter is passed separately where needed. -/
structure Diag where
  cleanup : List ECode
  funcs : List ECode
  opmodes : List ECode
  words : List ECode
  deriving DecidableEq

def Diag.empty : Diag := ⟨[], [], [], []⟩

def Diag.pushCleanup (d : Diag) (c : ECode) : Diag :=
  { d with cleanup := d.cleanup ++ [c] }

def Diag.pushFuncs (d : Diag) (c : ECode) : Diag :=
  { d with funcs := d.funcs ++ [c] }

def Diag.pushOpmodes (d : Diag) (c : ECode) : Diag :=
  { d with opmodes := d.opmodes ++ [c] }

def Diag.pushWords (d : Diag) (c : ECode) : Diag :=
  { d with words := d.words ++ [c] }

/-! ### Base-4 letter encoding (`second_pass.c`) -/

/-- `quad_letter`: `BASE4_FIRST_CHAR + (d & BASE4_DIGIT_MASK)`. -/
def quad_letter (d : Nat) : Char := Char.ofNat (97 + d % 4)

/-- `to_base4_letters`: fixed-width base-4 letters, most-significant first.
The C loop fills `out[width-1] .. out[0]` from `value`, shifting by 2 each
step; equivalently the last letter is `value & 3` and the prefix encodes
`value >> 2` at width-1. -/
def to_base4_letters : Nat → Nat → List Char
  | _, 0 => []
  | value, w + 1 => to_base4_letters (value / 4) w ++ [quad_letter (value % 4)]

/-- Digit-collection loop of `to_base4_letters_header`: gathers least
significant base-4 letters while `value > 0`, at most `BASE4_TMP_MAX - 1 = 16`
of them (the `tmp` buffer bound). -/
def base4_header_digits : Nat → Nat → List Char
  | _, 0 => []
  | value, fuel + 1 =>
    if value = 0 then []
    else quad_letter (value % 4) :: base4_header_digits (value / 4) fuel

/-- `to_base4_letters_header`: minimum-width base-4 letters (`0` encodes as
`"a"`); collected digits are reversed into most-significant-first order. -/
def to_base4_letters_header (value : Nat) : List Char :=
  if value = 0 then ['a'] else (base4_header_digits value 16).reverse

/-- `word10_to_letters_code`: `((payload8 & 0xFF) << 2) | (are2 & 3)` as five
base-4 letters. -/
def word10_to_letters_code (payload8 are2 : Nat) : List Char :=
  to_base4_letters ((payload8 % 256) * 4 + are2 % 4) 5

/-- `word10_to_letters_data`: the 10-bit data payload as five letters, ARE not
encoded. -/
def word10_to_letters_data (payload10 : Nat) : List Char :=
  to_base4_letters (payload10 % 1024) 5

/-- Decoder for the claim's digit mapping a=0, b=1, c=2, d=3, most-significant
letter first (the source has no decoder; this follows the claim's words). -/
def base4_decode (s : List Char) : Nat :=
  s.foldl (fun a c => a * 4 + (c.toNat - 97)) 0

lemma base4_decode_append_last (xs : List Char) (c : Char) :
    base4_decode (xs ++ [c]) = base4_decode xs * 4 + (c.toNat - 97) := by
  simp [base4_decode, List.foldl_append]

lemma quad_letter_toNat (d : Nat) : (quad_letter d).toNat = 97 + d % 4 := by
  have h4 : d % 4 < 4 := Nat.mod_lt _ (by norm_num)
  unfold quad_letter
  interval_cases h : d % 4 <;> simp [h]

lemma base4_roundtrip (w v : Nat) (hv : v < 4 ^ w) :
    base4_decode (to_base4_letters v w) = v := by
  induction w generalizing v with
  | zero =>
    simp [to_base4_letters, base4_decode]
    omega
  | succ w ih =>
    have hdiv : v / 4 < 4 ^ w := by
      rw [Nat.div_lt_iff_lt_mul (by norm_num)]
      calc v < 4 ^ (w + 1) := hv
        _ = 4 ^ w * 4 := by ring
    rw [to_base4_letters, base4_decode_append_last, ih _ hdiv, quad_letter_toNat]
    omega

/-- Claim C8: for every width `w > 0` and every `v` with `0 ≤ v < 4^w`, decoding the
`w`-letter base-4 form produced by `to_base4_letters` (digit mapping a=0, b=1,
c=2, d=3, most-significant digit first) recovers `v`. -/
theorem to_base4_letters_roundtrip (w v : Nat) (hw : 0 < w) (hv : v < 4 ^ w) :
    base4_decode (to_base4_letters v w) = v := by
  have _ := hw
  exact base4_roundtrip w v hv

theorem to_base4_letters_roundtrip_witness :
    0 < 5 ∧ 613 < 4 ^ 5 ∧ base4_decode (to_base4_letters 613 5) = 613 :=
  ⟨by decide, by decide, to_base4_letters_roundtrip 5 613 (by decide) (by decide)⟩

/-! ### Data model (`assembler.h`) -/

/-- `are_t`: `ARE_ABS = 0`. -/
def ARE_ABS : Nat := 0
/-- `are_t`: `ARE_REL = 2`. -/
def ARE_REL : Nat := 2
/-- `are_t`: `ARE_EXT = 1`. -/
def ARE_EXT : Nat := 1

/-- `machine_word`: address, optional label reference, 8-bit payload bit-field,
2-bit ARE bit-field.  The code image is the list in emission order (the C
linked list appends at the tail). -/
structure machine_word where
  address : Int
  label : List Char
  value : Nat
  are : Nat
  deriving DecidableEq

/-- `data_word`: address and `unsigned short` payload. -/
structure data_word where
  address : Int
  value : Nat
  deriving DecidableEq

inductive symbol_type
  | DATA_SYMBOL | CODE_SYMBOL | EXTERNAL_SYMBOL | ENTRY_SYMBOL | NONE_SYMBOL
  deriving DecidableEq

/-- `symbol_table` node: name (full `my_strdup` copy), value, kind. -/
structure symbol_entry where
  key : List Char
  value : Int
  type : symbol_type
  deriving DecidableEq

/-- `entry_list` node (`labels[31]`, filled by `strncpy` with at most 30
characters). -/
structure entry_node where
  labels : List Char
  addr : Int
  deriving DecidableEq

/-- `extern_list` node with its `extern_usage` chain (usage addresses in
append order). -/
structure extern_node where
  labels : List Char
  addr_head : List Int
  deriving DecidableEq

/-- `find_symbol` (`cleanup.c`): first entry whose key equals `name`
(case-sensitive `strcmp`). -/
def find_symbol (head : List symbol_entry) (name : List Char) : Option symbol_entry :=
  head.find? (fun s => s.key = name)

/-- Update step of `add_table_item`: the first entry with this key gets the
new value and type. -/
def update_first_symbol : List symbol_entry → List Char → Int → symbol_type →
    List symbol_entry
  | [], _, _, _ => []
  | s :: rest, key, v, ty =>
    if s.key = key then { s with value := v, type := ty } :: rest
    else s :: update_first_symbol rest key v ty

/-- `add_table_item` (`functions.c`): update an existing entry in place, else
insert a new entry at the head of the list. -/
def add_table_item (tab : List symbol_entry) (key : List Char) (v : Int)
    (ty : symbol_type) : List symbol_entry :=
  if tab.any (fun s => s.key = key) then update_first_symbol tab key v ty
  else ⟨key, v, ty⟩ :: tab

/-- `add_entry` (`functions.c`): append at the tail; `create_entry_node`
truncates the label to 30 characters (`strncpy` into `labels[31]`). -/
def add_entry (head : List entry_node) (label : List Char) (addr : Int) :
    List entry_node :=
  head ++ [⟨label.take 30, addr⟩]

/-- `add_extern` (`functions.c`): append at the tail with an empty usage
chain; the label is truncated to 30 characters. -/
def add_extern (head : List extern_node) (label : List Char) : List extern_node :=
  head ++ [⟨label.take 30, []⟩]

/-! ### Second pass: label resolution (`second_pass.c`) -/

/-- The extern-list walk of `resolve_labels_in_place` combined with
`add_to_extern_usage_list`: the first node whose label matches gets `addr`
appended at the tail of its usage chain; the walk stops there. -/
def add_usage_to_ext_list : List extern_node → List Char → Int → List extern_node
  | [], _, _ => []
  | e :: rest, name, a =>
    if e.labels = name then { e with addr_head := e.addr_head ++ [a] } :: rest
    else e :: add_usage_to_ext_list rest name a

/-- The extern-list search of `resolve_labels_in_place`. -/
def find_ext_node (es : List extern_node) (name : List Char) : Option extern_node :=
  es.find? (fun e => e.labels = name)

/-- Per-word body of the `resolve_labels_in_place` loop.  Words with an empty
label are skipped.  Otherwise the payload is first set to 0 (`mw->value = 0u`);
a symbol-table hit then overwrites it with the symbol's value (8-bit bit-field
assignment) and sets ARE to relocatable; an extern hit keeps payload 0, sets
ARE to external and records the usage; if neither matches, the payload stays
at the freshly written 0 and the ARE field is left as it was. -/
def resolve_word (symtab : List symbol_entry) (es : List extern_node)
    (mw : machine_word) : machine_word × List extern_node :=
  if mw.label = [] then (mw, es)
  else
    match find_symbol symtab mw.label with
    | some hit => ({ mw with value := uCast8 hit.value, are := ARE_REL }, es)
    | none =>
      match find_ext_node es mw.label with
      | some _ =>
        ({ mw with value := 0, are := ARE_EXT },
         add_usage_to_ext_list es mw.label mw.address)
      | none => ({ mw with value := 0 }, es)

/-- `resolve_labels_in_place`: walk the code image in order, resolving each
word and threading the extern usage lists. -/
def resolve_labels_in_place : List machine_word → List symbol_entry →
    List extern_node → List machine_word × List extern_node
  | [], _, es => ([], es)
  | mw :: rest, symtab, es =>
    let r1 := resolve_word symtab es mw
    let r2 := resolve_labels_in_place rest symtab r1.2
    (r1.1 :: r2.1, r2.2)

/-- `complete_entry_labels` (`second_pass.c`): each entry record takes the
value of the first symbol-table entry with its name; records with no match
keep their address. -/
def complete_entry_labels (symtab : List symbol_entry) (ents : List entry_node) :
    List entry_node :=
  ents.map (fun en =>
    match find_symbol symtab en.labels with
    | some sym => { en with addr := sym.value }
    | none => en)

/-- `has_any_extern_usage` (`second_pass.c`). -/
def has_any_extern_usage (xs : List extern_node) : Bool :=
  xs.any (fun e => e.addr_head ≠ [])

/-! ### Properties of label resolution (claims C1 and C7) -/

/-- The word transformation performed by `resolve_word` depends on the extern
list only through its set of labels. -/
def resolve_word_pure (symtab : List symbol_entry) (names : List (List Char))
    (mw : machine_word) : machine_word :=
  if mw.label = [] then mw
  else
    match find_symbol symtab mw.label with
    | some hit => { mw with value := uCast8 hit.value, are := ARE_REL }
    | none =>
      if names.any (fun n => n = mw.label) then
        { mw with value := 0, are := ARE_EXT }
      else { mw with value := 0 }

lemma add_usage_labels (es : List extern_node) (name : List Char) (a : Int) :
    (add_usage_to_ext_list es name a).map extern_node.labels =
      es.map extern_node.labels := by
  induction es with
  | nil => rfl
  | cons e rest ih =>
    by_cases h : e.labels = name <;> simp [add_usage_to_ext_list, h, ih]

lemma find_extern_isSome_iff (es : List extern_node) (name : List Char) :
    (find_ext_node es name).isSome =
      (es.map extern_node.labels).any (fun n => n = name) := by
  induction es with
  | nil => rfl
  | cons e rest ih =>
    by_cases h : e.labels = name <;> simp [find_ext_node, List.find?, h] <;>
      simpa [find_ext_node] using ih


lemma resolve_word_fst (symtab : List symbol_entry) (es : List extern_node)
    (mw : machine_word) :
    (resolve_word symtab es mw).1 =
      resolve_word_pure symtab (es.map extern_node.labels) mw := by
  unfold resolve_word resolve_word_pure
  by_cases hl : mw.label = []
  · simp [hl]
  · rw [if_neg hl, if_neg hl]
    cases hsym : find_symbol symtab mw.label
    · have hb := find_extern_isSome_iff es mw.label
      cases hext : find_ext_node es mw.label
      · rw [hext] at hb
        simp only [Option.isSome_none] at hb
        rw [← hb]
        simp
      · rw [hext] at hb
        simp only [Option.isSome_some] at hb
        rw [← hb]
        simp
    · simp

lemma resolve_word_snd_labels (symtab : List symbol_entry)
    (es : List extern_node) (mw : machine_word) :
    ((resolve_word symtab es mw).2).map extern_node.labels =
      es.map extern_node.labels := by
  unfold resolve_word
  by_cases hl : mw.label = []
  · simp [hl]
  · rw [if_neg hl]
    cases hsym : find_symbol symtab mw.label
    · cases hext : find_ext_node es mw.label <;> simp [add_usage_labels]
    · simp

/-- The resolved code image is the elementwise image of the input words;
the threaded extern state never influences a word's resolution beyond the
(unchanging) set of extern labels. -/
lemma resolve_labels_fst (ws : List machine_word) (symtab : List symbol_entry)
    (es : List extern_node) :
    (resolve_labels_in_place ws symtab es).1 =
      ws.map (resolve_word_pure symtab (es.map extern_node.labels)) := by
  induction ws generalizing es with
  | nil => rfl
  | cons w rest ih =>
    simp only [resolve_labels_in_place, List.map_cons]
    rw [ih, resolve_word_snd_labels, resolve_word_fst]

/-- Claim C1 (counterexample): a code word whose label matches neither the
symbol table nor the extern list does not keep its payload: the word
`{address 100, label "X", payload 5, ARE 0}` leaves `resolve_labels_in_place`
with payload 0, not 5 (the ARE field alone is preserved). -/
theorem resolve_unmatched_payload_counterexample :
    (machine_word.mk 100 ['X'] 5 0).label ≠ [] ∧
    find_symbol [] (machine_word.mk 100 ['X'] 5 0).label = none ∧
    find_ext_node [] (machine_word.mk 100 ['X'] 5 0).label = none ∧
    (resolve_labels_in_place [machine_word.mk 100 ['X'] 5 0] [] []).1 =
      [machine_word.mk 100 ['X'] 0 0] ∧
    (machine_word.mk 100 ['X'] 5 0).value ≠ 0 := by
  refine ⟨by decide, by decide, by decide, ?_, by decide⟩
  decide

/-- Claim C1 (amended): in the second pass, a code-image word whose
label-reference field is non-empty and matches neither a symbol-table entry
nor an extern-list entry keeps its address, label and ARE field, and its
payload is set to 0 (so the payload is unchanged exactly when it was already
0). -/
theorem resolve_unmatched_frame (ws : List machine_word)
    (symtab : List symbol_entry) (es : List extern_node) (i : Nat)
    (hi : i < ws.length)
    (hne : (ws.get ⟨i, hi⟩).label ≠ [])
    (hs : find_symbol symtab (ws.get ⟨i, hi⟩).label = none)
    (he : find_ext_node es (ws.get ⟨i, hi⟩).label = none) :
    ((resolve_labels_in_place ws symtab es).1)[i]? =
      some { ws.get ⟨i, hi⟩ with value := 0 } := by
  rw [resolve_labels_fst, List.getElem?_map, List.getElem?_eq_getElem hi]
  have hb := find_extern_isSome_iff es (ws.get ⟨i, hi⟩).label
  rw [he] at hb
  simp only [Option.isSome_none] at hb
  have hw : ws[i] = ws.get ⟨i, hi⟩ := rfl
  simp only [Option.map_some', hw]
  unfold resolve_word_pure
  rw [if_neg hne, hs, ← hb]
  simp

theorem resolve_unmatched_frame_witness :
    (machine_word.mk 101 ['Y'] 7 2).label ≠ [] ∧
    ((resolve_labels_in_place [machine_word.mk 101 ['Y'] 7 2]
        [symbol_entry.mk ['Z'] 120 symbol_type.CODE_SYMBOL]
        [extern_node.mk ['W'] []]).1)[0]? =
      some (machine_word.mk 101 ['Y'] 0 2) :=
  ⟨by decide,
   resolve_unmatched_frame [machine_word.mk 101 ['Y'] 7 2]
     [symbol_entry.mk ['Z'] 120 symbol_type.CODE_SYMBOL]
     [extern_node.mk ['W'] []] 0 (by decide) (by decide) (by decide) (by decide)⟩

/-- A word that the second pass resolves into extern node `name`: non-empty
label, no symbol-table hit, label equal to the node's label. -/
def resolves_to_ext_node (symtab : List symbol_entry) (name : List Char)
    (mw : machine_word) : Bool :=
  mw.label ≠ [] ∧ (find_symbol symtab mw.label).isNone ∧ mw.label = name

lemma map_cond_usage_id (es : List extern_node) (f : extern_node → extern_node)
    (p : extern_node → Prop) [DecidablePred p] (h : ∀ e ∈ es, ¬ p e) :
    es.map (fun e => if p e then f e else e) = es := by
  induction es with
  | nil => rfl
  | cons e rest ih =>
    rw [List.map_cons, if_neg (h e (by simp)),
      ih (fun e' he' => h e' (by simp [he']))]

lemma add_usage_eq_map (es : List extern_node) (name : List Char) (a : Int)
    (hnd : (es.map extern_node.labels).Nodup) :
    add_usage_to_ext_list es name a =
      es.map (fun e => if e.labels = name
        then { e with addr_head := e.addr_head ++ [a] } else e) := by
  induction es with
  | nil => rfl
  | cons e rest ih =>
    simp only [List.map_cons, List.nodup_cons] at hnd
    by_cases h : e.labels = name
    · unfold add_usage_to_ext_list
      rw [if_pos h, List.map_cons, if_pos h]
      congr 1
      refine (map_cond_usage_id rest _ _ ?_).symm
      intro e' he' hcon
      apply hnd.1
      rw [h, ← hcon]
      exact List.mem_map_of_mem _ he'
    · unfold add_usage_to_ext_list
      rw [if_neg h, List.map_cons, if_neg h, ih hnd.2]

lemma resolve_word_snd (symtab : List symbol_entry) (es : List extern_node)
    (mw : machine_word) (hnd : (es.map extern_node.labels).Nodup) :
    (resolve_word symtab es mw).2 =
      es.map (fun e => if resolves_to_ext_node symtab e.labels mw
        then { e with addr_head := e.addr_head ++ [mw.address] } else e) := by
  unfold resolve_word
  by_cases hl : mw.label = []
  · rw [if_pos hl]
    refine (map_cond_usage_id es _ _ ?_).symm
    intro e _
    simp [resolves_to_ext_node, hl]
  · rw [if_neg hl]
    cases hsym : find_symbol symtab mw.label
    · cases hext : find_ext_node es mw.label
      · have hnm : ∀ e ∈ es, ¬ (e.labels = mw.label) := by
          intro e he
          have := List.find?_eq_none.mp hext e he
          simpa using this
        refine (map_cond_usage_id es _ _ ?_).symm
        intro e he
        simp only [resolves_to_ext_node, hl, hsym]
        simp only [decide_not, Bool.and_eq_true, decide_eq_true_eq,
          Bool.not_eq_true', decide_eq_false_iff_not, Option.isNone_none]
        intro hcon
        exact hnm e he hcon.2.2.symm
      · rw [add_usage_eq_map es mw.label mw.address hnd]
        apply List.map_congr_left
        intro e _
        have hcond : (resolves_to_ext_node symtab e.labels mw = true) ↔
            (e.labels = mw.label) := by
          simp [resolves_to_ext_node, hl, hsym, eq_comm]
        by_cases h : e.labels = mw.label
        · rw [if_pos h, if_pos (hcond.mpr h)]
        · rw [if_neg h, if_neg (fun hc => h (hcond.mp hc))]
    · refine (map_cond_usage_id es _ _ ?_).symm
      intro e _
      simp [resolves_to_ext_node, hsym]

/-- After resolving the whole code image, each extern node's usage chain is
its initial chain followed by the addresses, in code order, of exactly the
words that resolve to that node. -/
lemma resolve_labels_snd (ws : List machine_word) (symtab : List symbol_entry)
    (es : List extern_node) (hnd : (es.map extern_node.labels).Nodup) :
    (resolve_labels_in_place ws symtab es).2 =
      es.map (fun e => { e with addr_head := e.addr_head ++
        ((ws.filter (resolves_to_ext_node symtab e.labels)).map machine_word.address) }) := by
  induction ws generalizing es with
  | nil =>
    simp only [resolve_labels_in_place, List.filter_nil, List.map_nil,
      List.append_nil]
    have : ∀ e : extern_node,
        ({ e with addr_head := e.addr_head } : extern_node) = e := fun e => rfl
    simp [this]
  | cons w rest ih =>
    simp only [resolve_labels_in_place]
    have hlab : ((resolve_word symtab es w).2).map extern_node.labels =
        es.map extern_node.labels := resolve_word_snd_labels symtab es w
    have hnd' : (((resolve_word symtab es w).2).map extern_node.labels).Nodup := by
      rw [hlab]; exact hnd
    rw [ih _ hnd', resolve_word_snd symtab es w hnd, List.map_map]
    apply List.map_congr_left
    intro e _
    simp only [Function.comp]
    by_cases hres : resolves_to_ext_node symtab e.labels w
    · rw [if_pos hres, List.filter_cons, if_pos hres, List.map_cons]
      simp [List.append_assoc]
    · rw [if_neg hres, List.filter_cons, if_neg hres]

lemma count_map_filter_unique {α β : Type} [DecidableEq β] (l : List α)
    (p : α → Bool) (f : α → β) (a : β) (hnd : (l.map f).Nodup) (x : α)
    (hx : x ∈ l) (hax : f x = a) (hpx : p x = true) :
    ((l.filter p).map f).count a = 1 := by
  induction l with
  | nil => cases hx
  | cons y rest ih =>
    simp only [List.map_cons, List.nodup_cons] at hnd
    have hsub : ∀ b, b ∈ (rest.filter p).map f → b ∈ rest.map f := by
      intro b hb
      exact (List.Sublist.map f (List.filter_sublist rest)).subset hb
    rcases List.mem_cons.mp hx with hxy | hxr
    · subst hxy
      rw [List.filter_cons, if_pos hpx, List.map_cons, List.count_cons]
      have hnotin : a ∉ (rest.filter p).map f := by
        intro hin
        apply hnd.1
        rw [hax]
        exact hsub a hin
      rw [List.count_eq_zero.mpr hnotin, hax]
      simp
    · have hane : ¬ (a = f y) := by
        intro hcon
        apply hnd.1
        rw [← hcon, ← hax]
        exact List.mem_map_of_mem f hxr
      have hane' : ¬ (f y = a) := fun hcon => hane hcon.symm
      rw [List.filter_cons]
      by_cases hpy : p y = true
      · rw [if_pos hpy, List.map_cons, List.count_cons, ih hnd.2 hxr]
        simp [hane, hane']
      · simp only [hpy, if_false]
        exact ih hnd.2 hxr

/-- Claim C7: after the second pass, a code-image word whose pre-resolution
label matches an extern declaration (and no symbol-table entry) has payload 0
and ARE = External, and its address appears exactly once in that extern's
usage chain; a word resolved through the symbol table lands in no extern
usage chain.  Hypotheses: distinct code-word addresses, extern usage chains
empty before the pass (as pass one leaves them), distinct extern names. -/
theorem resolve_extern_usage (ws : List machine_word)
    (symtab : List symbol_entry) (es : List extern_node)
    (haddr : (ws.map machine_word.address).Nodup)
    (hempty : ∀ e ∈ es, e.addr_head = [])
    (hnames : (es.map extern_node.labels).Nodup)
    (i : Nat) (hi : i < ws.length) :
    ((ws.get ⟨i, hi⟩).label ≠ [] →
      find_symbol symtab (ws.get ⟨i, hi⟩).label = none →
      ∀ e, find_ext_node es (ws.get ⟨i, hi⟩).label = some e →
        ((resolve_labels_in_place ws symtab es).1)[i]? =
          some { ws.get ⟨i, hi⟩ with value := 0, are := ARE_EXT } ∧
        ∀ e' ∈ (resolve_labels_in_place ws symtab es).2, e'.labels = e.labels →
          e'.addr_head.count (ws.get ⟨i, hi⟩).address = 1) ∧
    ((find_symbol symtab (ws.get ⟨i, hi⟩).label).isSome →
      ∀ e' ∈ (resolve_labels_in_place ws symtab es).2,
        (ws.get ⟨i, hi⟩).address ∉ e'.addr_head) := by
  constructor
  · intro hne hs e hext
    constructor
    · rw [resolve_labels_fst, List.getElem?_map, List.getElem?_eq_getElem hi]
      have hb := find_extern_isSome_iff es (ws.get ⟨i, hi⟩).label
      rw [hext] at hb
      simp only [Option.isSome_some] at hb
      have hw : ws[i] = ws.get ⟨i, hi⟩ := rfl
      simp only [Option.map_some', hw]
      unfold resolve_word_pure
      rw [if_neg hne, hs, ← hb]
      simp
    · intro e' he' hlab
      rw [resolve_labels_snd ws symtab es hnames] at he'
      rcases List.mem_map.mp he' with ⟨e0, he0, rfl⟩
      have helab : e.labels = (ws.get ⟨i, hi⟩).label := by
        have := List.find?_some hext
        simpa using this
      simp only at hlab
      rw [hempty e0 he0]
      simp only [List.nil_append]
      have h3 : (ws.get ⟨i, hi⟩).label = e0.labels := (hlab.trans helab).symm
      have hp : resolves_to_ext_node symtab e0.labels (ws.get ⟨i, hi⟩) = true := by
        have hne2 : ¬ ws[i].label = [] := hne
        unfold resolves_to_ext_node
        rw [hs, ← h3]
        simp [hne2]
      exact count_map_filter_unique ws _ machine_word.address _ haddr
        (ws.get ⟨i, hi⟩) (ws.get_mem i hi) rfl hp
  · intro hs e' he'
    rw [resolve_labels_snd ws symtab es hnames] at he'
    rcases List.mem_map.mp he' with ⟨e0, he0, rfl⟩
    simp only []
    rw [hempty e0 he0, List.nil_append]
    intro hmem
    rcases List.mem_map.mp hmem with ⟨w', hw', haddr'⟩
    rcases List.mem_filter.mp hw' with ⟨hw'mem, hw'p⟩
    have hww : w' = ws.get ⟨i, hi⟩ := by
      have hinj := List.inj_on_of_nodup_map haddr
      exact hinj hw'mem (ws.get_mem i hi) haddr'
    subst hww
    unfold resolves_to_ext_node at hw'p
    rcases (by simpa using hw'p :
        (ws.get ⟨i, hi⟩).label ≠ [] ∧
        (find_symbol symtab (ws.get ⟨i, hi⟩).label).isNone = true ∧
        (ws.get ⟨i, hi⟩).label = e0.labels) with ⟨_, hnone, _⟩
    rw [Option.isNone_iff_eq_none] at hnone
    rw [hnone] at hs
    cases hs

theorem resolve_extern_usage_witness :
    (((resolve_labels_in_place [machine_word.mk 100 ['W'] 0 0] []
        [extern_node.mk ['W'] []]).1)[0]? =
      some (machine_word.mk 100 ['W'] 0 1)) ∧
    (∀ e' ∈ (resolve_labels_in_place [machine_word.mk 100 ['W'] 0 0] []
        [extern_node.mk ['W'] []]).2,
      e'.labels = ['W'] → e'.addr_head.count 100 = 1) := by
  have h := (resolve_extern_usage [machine_word.mk 100 ['W'] 0 0] []
    [extern_node.mk ['W'] []] (by decide) (by decide) (by decide) 0
    (by decide)).1 (by decide) (by decide) (extern_node.mk ['W'] []) (by decide)
  exact ⟨h.1, fun e' he' hl => h.2 e' he' hl⟩

/-! ### C-string parsing helpers (`functions.c`, `words.c`) -/

/-- `skip_ws` (`functions.c`). -/
def skip_ws (p : List Char) : List Char := p.dropWhile c_isspace

/-- `strip_inline_comment` (`functions.c`): truncate the line at the first
`;`. -/
def strip_inline_comment (line : List Char) : List Char :=
  line.takeWhile (fun c => c ≠ ';')

/-- `trim_inplace` (`words.c`): remove leading and trailing whitespace. -/
def trim_inplace (s : List Char) : List Char :=
  ((s.dropWhile c_isspace).reverse.dropWhile c_isspace).reverse

/-- `trim_whitespace` (`functions.c`): the slice-trimming helper; same
semantics as `trim_inplace` on a materialised slice. -/
def trim_whitespace (s : List Char) : List Char :=
  ((s.dropWhile c_isspace).reverse.dropWhile c_isspace).reverse

/-- Value accumulated by `strtol`'s base-10 digit loop. -/
def strtol_accum (ds : List Char) : Int :=
  ds.foldl (fun a c => a * 10 + ((c.toNat : Int) - 48)) 0

/-- `strtol(p, &end, 10)`: skip whitespace, take one optional sign, then a
non-empty run of digits.  `none` models "no conversion" (`endptr == nptr`);
on success the result carries the value and the tail after the digit run.
(`long` overflow clamping is not modelled; every caller range-checks the
result against bounds far below the `long` range, so a clamped huge literal
and its unclamped value are rejected alike.) -/
def strtol_digits (r : List Char) (neg : Bool) : Option (Int × List Char) :=
  let ds := r.takeWhile c_isdigit
  if ds = [] then none
  else some ((if neg then - strtol_accum ds else strtol_accum ds),
             r.dropWhile c_isdigit)

/-- Sign-and-digit step of `strtol`, applied after the whitespace skip. -/
def strtol10cont : List Char → Option (Int × List Char)
  | [] => none
  | c :: r =>
    if c = '+' then strtol_digits r false
    else if c = '-' then strtol_digits r true
    else strtol_digits (c :: r) false

def strtol10 (s : List Char) : Option (Int × List Char) :=
  strtol10cont (s.dropWhile c_isspace)

/-- `parse_imm8` (`words.c`): `#` then a `strtol` number, then nothing but
whitespace, value within `[IMM8_MIN, IMM8_MAX] = [-128, 127]`. -/
def parse_imm8 (tok : List Char) : Option Int :=
  match tok with
  | [] => none
  | c :: rest =>
    if c ≠ '#' then none
    else
      match strtol10 rest with
      | none => none
      | some (v, after) =>
        if after.dropWhile c_isspace ≠ [] then none
        else if v < -128 ∨ 127 < v then none
        else some v

/-- `is_register_token` (`functions.c`): exactly two characters, `r`/`R` then
a digit `0..7`. -/
def is_register_token (token : List Char) : Bool :=
  match token with
  | [c0, c1] => (c0 = 'r' ∨ c0 = 'R') ∧ ('0' ≤ c1 ∧ c1 ≤ '7')
  | _ => false

/-- `reg_id` (`words.c`): `tok[1] - '0'`, or `-1` for a non-register token. -/
def reg_id (tok : List Char) : Int :=
  if is_register_token tok then
    match tok with
    | _ :: c1 :: _ => (c1.toNat : Int) - 48
    | _ => -1
  else -1

/-- `is_register_name` (`cleanup.c`): `r`/`R`, digit `0..7`, end of string. -/
def is_register_name (s : List Char) : Bool :=
  match s with
  | [c0, c1] => (c0 = 'r' ∨ c0 = 'R') ∧ ('0' ≤ c1 ∧ c1 ≤ '7')
  | _ => false

/-- `is_alpha_num_label` (`cleanup.c`): letter first, then alphanumerics. -/
def is_alpha_num_label (s : List Char) : Bool :=
  match s with
  | [] => false
  | c :: rest => c_isalpha c ∧ rest.all c_isalnum

/-- `ieq` (`cleanup.c`): case-insensitive equality. -/
def ieq (a b : List Char) : Bool :=
  a.map c_tolower = b.map c_tolower

/-- First index of `c` in `l` at or after `start` (`strchr` on a suffix). -/
def idx_of_from (l : List Char) (c : Char) (start : Nat) : Option Nat :=
  match (l.drop start).findIdx? (fun x => x = c) with
  | none => none
  | some i => some (start + i)

/-! ### Operand splitting and addressing-mode detection -/

/-- Comma counting loop of `split_operands`: commas inside a `[`..`]` span do
not count; a `[` with no later `]` stops the count (the C `break`).  Fuel is
the remaining length, which the source loop also never exceeds. -/
def count_top_commas : Nat → List Char → Nat
  | 0, _ => 0
  | _, [] => 0
  | fuel + 1, c :: rest =>
    if c = '[' then
      match rest.findIdx? (fun x => x = ']') with
      | none => 0
      | some i => count_top_commas fuel (rest.drop (i + 1))
    else if c = ',' then 1 + count_top_commas fuel rest
    else count_top_commas fuel rest

/-- `split_operands` (`words.c`): strip comment, trim, skip the mnemonic
token, trim; reject more than one top-level comma; split at the first comma
(`strchr`), trimming both sides.  Returns (operand count, src token, dst
token); a single operand is returned in the src slot. -/
def split_operands (text : List Char) : Nat × List Char × List Char :=
  let text1 := text.takeWhile (fun c => c ≠ ';')
  let p := trim_inplace text1
  if p = [] then (0, [], [])
  else
    let p1 := p.dropWhile (fun c => ¬ c_isspace c)
    let p2 := trim_inplace p1
    if p2 = [] then (0, [], [])
    else
      if count_top_commas p2.length p2 > 1 then (0, [], [])
      else
        match p2.findIdx? (fun c => c = ',') with
        | none =>
          let left := trim_inplace p2
          if left ≠ [] then (1, left, []) else (0, [], [])
        | some i =>
          let left := trim_inplace (p2.take i)
          let right := trim_inplace (p2.drop (i + 1))
          if left = [] ∨ right = [] then (0, [], [])
          else (2, left, right)

/-- `matrix_error_t` (`assembler.h`). -/
inductive matrix_error
  | NONE | NO_BRACKETS | MISSING_CLOSE_BRACKET | MISSING_SECOND_OPEN
  | MISSING_SECOND_CLOSE | EMPTY_LABEL | LABEL_TOO_LONG | EMPTY_INDEX
  | INVALID_REGISTER | NON_REGISTER | JUNK_BETWEEN_BRACKETS
  deriving DecidableEq

/-- `register_validity_t` (`assembler.h`). -/
inductive register_validity
  | REG_VALID | REG_INVALID_NOT_REGISTER | REG_INVALID_BAD_REGISTER
  deriving DecidableEq

/-- `validate_register_slice` (`functions.c`). -/
def validate_register_slice (s : List Char) : register_validity :=
  match s with
  | [] => register_validity.REG_INVALID_NOT_REGISTER
  | c :: rest =>
    if c = 'r' ∨ c = 'R' then
      match rest with
      | [d1] =>
        if '0' ≤ d1 ∧ d1 ≤ '7' then register_validity.REG_VALID
        else register_validity.REG_INVALID_BAD_REGISTER
      | _ => register_validity.REG_INVALID_BAD_REGISTER
    else register_validity.REG_INVALID_NOT_REGISTER

/-- Result of `parse_matrix_operand`: the label/register slices on success,
the error kind otherwise (error positions feed only diagnostic columns and
are not modelled). -/
inductive matrix_parse_result
  | ok (label r1 r2 : List Char)
  | err (e : matrix_error)
  deriving DecidableEq

/-- `parse_matrix_operand` (`functions.c`): locate the four brackets
(`locate_all_brackets`), slice and validate label and both register indices,
and reject junk between `][`.  Any failure of bracket discovery yields
`NO_BRACKETS` as in `locate_all_brackets`/`parse_matrix_operand`. -/
def parse_matrix_operand (operand : List Char) : matrix_parse_result :=
  match idx_of_from operand '[' 0 with
  | none => matrix_parse_result.err matrix_error.NO_BRACKETS
  | some b1 =>
    match idx_of_from operand ']' (b1 + 1) with
    | none => matrix_parse_result.err matrix_error.NO_BRACKETS
    | some b2 =>
      match idx_of_from operand '[' (b2 + 1) with
      | none => matrix_parse_result.err matrix_error.NO_BRACKETS
      | some b3 =>
        match idx_of_from operand ']' (b3 + 1) with
        | none => matrix_parse_result.err matrix_error.NO_BRACKETS
        | some b4 =>
          if ¬ (b1 < b2 ∧ b2 < b3 ∧ b3 < b4) then
            matrix_parse_result.err matrix_error.NO_BRACKETS
          else if b1 = 0 then matrix_parse_result.err matrix_error.EMPTY_LABEL
          else if b1 > 31 then matrix_parse_result.err matrix_error.LABEL_TOO_LONG
          else
            let r1s := trim_whitespace ((operand.drop (b1 + 1)).take (b2 - b1 - 1))
            if r1s = [] then matrix_parse_result.err matrix_error.EMPTY_INDEX
            else
              match validate_register_slice r1s with
              | register_validity.REG_INVALID_BAD_REGISTER =>
                matrix_parse_result.err matrix_error.INVALID_REGISTER
              | register_validity.REG_INVALID_NOT_REGISTER =>
                matrix_parse_result.err matrix_error.NON_REGISTER
              | register_validity.REG_VALID =>
                let between := (operand.drop (b2 + 1)).take (b3 - b2 - 1)
                if between.dropWhile c_isspace ≠ [] then
                  matrix_parse_result.err matrix_error.JUNK_BETWEEN_BRACKETS
                else
                  let r2s := trim_whitespace ((operand.drop (b3 + 1)).take (b4 - b3 - 1))
                  if r2s = [] then matrix_parse_result.err matrix_error.EMPTY_INDEX
                  else
                    match validate_register_slice r2s with
                    | register_validity.REG_INVALID_BAD_REGISTER =>
                      matrix_parse_result.err matrix_error.INVALID_REGISTER
                    | register_validity.REG_INVALID_NOT_REGISTER =>
                      matrix_parse_result.err matrix_error.NON_REGISTER
                    | register_validity.REG_VALID =>
                      matrix_parse_result.ok (operand.take b1) r1s r2s

/-- `looks_like_matrix` (`functions.c`). -/
def looks_like_matrix (operand : List Char) : Bool :=
  match parse_matrix_operand operand with
  | matrix_parse_result.ok _ _ _ => true
  | _ => false

/-- `addr_mode` (`assembler.h`); `NONE` is `ADDR_NONE`. -/
inductive addr_mode
  | IMMEDIATE | DIRECT | MATRIX | REGISTER | NONE
  deriving DecidableEq

/-- `get_addr_method` (`functions.c`). -/
def get_addr_method (operand : List Char) : addr_mode :=
  let trimmed := operand.dropWhile c_isspace
  match trimmed with
  | [] => addr_mode.NONE
  | c :: _ =>
    if c = '#' then addr_mode.IMMEDIATE
    else if is_register_token trimmed then addr_mode.REGISTER
    else if looks_like_matrix trimmed then addr_mode.MATRIX
    else if trimmed.any (fun x => x = '[') then addr_mode.MATRIX
    else addr_mode.DIRECT

/-- `to2bits` (`functions.c`); the `default` arm returns `BITS_IMMEDIATE`. -/
def to2bits : addr_mode → Nat
  | addr_mode.IMMEDIATE => 0
  | addr_mode.DIRECT => 1
  | addr_mode.MATRIX => 2
  | addr_mode.REGISTER => 3
  | addr_mode.NONE => 0

/-! ### Opcode rule table (`opmodes.h`, `opmodes.c`) -/

/-- `CommandsTable` (`assembler.h`). -/
inductive CommandsTable
  | MOV | CMP | ADD | SUB | NOT | CLR | LEA | INC | DEC | JMP | BNE | RED
  | PRN | JSR | RTS | STOP
  | DATA | STRING | MATRIX | ENTRY | EXTERN
  | UNDEFINED
  deriving DecidableEq

/-- Numeric values of the `CommandsTable` enum; `UNDEFINED = -1` becomes
`0xFFFFFFFF` under the `(unsigned)` cast applied at its only numeric use. -/
def opcode_value : CommandsTable → Nat
  | CommandsTable.MOV => 0 | CommandsTable.CMP => 1 | CommandsTable.ADD => 2
  | CommandsTable.SUB => 3 | CommandsTable.NOT => 4 | CommandsTable.CLR => 5
  | CommandsTable.LEA => 6 | CommandsTable.INC => 7 | CommandsTable.DEC => 8
  | CommandsTable.JMP => 9 | CommandsTable.BNE => 10 | CommandsTable.RED => 11
  | CommandsTable.PRN => 12 | CommandsTable.JSR => 13 | CommandsTable.RTS => 14
  | CommandsTable.STOP => 15
  | CommandsTable.DATA => 16 | CommandsTable.STRING => 17
  | CommandsTable.MATRIX => 18 | CommandsTable.ENTRY => 19
  | CommandsTable.EXTERN => 20
  | CommandsTable.UNDEFINED => 4294967295

/-- Addressing-mode bit masks (`opmodes.h`): `AM_BIT(n) = 1 << n`. -/
def AM_IMM : Nat := 1
def AM_DIR : Nat := 2
def AM_MAT : Nat := 4
def AM_REG : Nat := 8
def AM_NONE : Nat := 0
def AM_ALL : Nat := 15

/-- `opcode_mode` rule record (name and `funct` dropped: diagnostics only). -/
structure opcode_mode where
  min_ops : Nat
  max_ops : Nat
  src_mask : Nat
  dst_mask : Nat
  deriving DecidableEq

/-- `opcode_rule` (`opmodes.c`): the per-mnemonic rule table;
`AM_DIR|AM_MAT|AM_REG = 14`, `AM_DIR|AM_MAT = 6`. -/
def opcode_rule : CommandsTable → Option opcode_mode
  | CommandsTable.MOV => some ⟨2, 2, AM_ALL, 14⟩
  | CommandsTable.CMP => some ⟨2, 2, AM_ALL, AM_ALL⟩
  | CommandsTable.ADD => some ⟨2, 2, 14, 14⟩
  | CommandsTable.SUB => some ⟨2, 2, 14, 14⟩
  | CommandsTable.LEA => some ⟨2, 2, 6, 14⟩
  | CommandsTable.CLR => some ⟨1, 1, AM_NONE, 14⟩
  | CommandsTable.NOT => some ⟨1, 1, AM_NONE, 14⟩
  | CommandsTable.INC => some ⟨1, 1, AM_NONE, 14⟩
  | CommandsTable.DEC => some ⟨1, 1, AM_NONE, 14⟩
  | CommandsTable.JMP => some ⟨1, 1, AM_NONE, 14⟩
  | CommandsTable.BNE => some ⟨1, 1, AM_NONE, 14⟩
  | CommandsTable.JSR => some ⟨1, 1, AM_NONE, 14⟩
  | CommandsTable.RED => some ⟨1, 1, AM_NONE, 14⟩
  | CommandsTable.PRN => some ⟨1, 1, AM_NONE, AM_ALL⟩
  | CommandsTable.RTS => some ⟨0, 0, AM_NONE, AM_NONE⟩
  | CommandsTable.STOP => some ⟨0, 0, AM_NONE, AM_NONE⟩
  | _ => none

/-- `mode_bit` (`opmodes.c`). -/
def mode_bit : addr_mode → Nat
  | addr_mode.IMMEDIATE => AM_IMM
  | addr_mode.DIRECT => AM_DIR
  | addr_mode.MATRIX => AM_MAT
  | addr_mode.REGISTER => AM_REG
  | addr_mode.NONE => AM_NONE

/-- `validate_operand` (`opmodes.c`): returns 1 (true) if an error was
reported.  `ADDR_NONE` → missing operand (AS023); mask miss → illegal mode
(AS022); both report into the `opmodes.c` unit. -/
def validate_operand (rule : opcode_mode) (mode : addr_mode) (is_source : Bool)
    (d : Diag) : Bool × Diag :=
  let required_mask := if is_source then rule.src_mask else rule.dst_mask
  if mode = addr_mode.NONE then (true, d.pushOpmodes ECode.AS023)
  else if required_mask.land (mode_bit mode) = 0 then
    (true, d.pushOpmodes ECode.AS022)
  else (false, d)

/-- `validate_modes_for_opcode` (`opmodes.c`).  Count mismatch is a single
AS003 and aborts mode checking; one-operand forms additionally reject a
parsed source (AS024) and validate the destination; two-operand forms
validate both slots. -/
def validate_modes_for_opcode (cmd : CommandsTable) (operand_count : Nat)
    (src_mode dst_mode : addr_mode) (d : Diag) : Bool × Diag :=
  match opcode_rule cmd with
  | none => (true, d.pushOpmodes ECode.AS001)
  | some rule =>
    if operand_count < rule.min_ops ∨ rule.max_ops < operand_count then
      (true, d.pushOpmodes ECode.AS003)
    else
      match operand_count with
      | 0 => (false, d)
      | 1 =>
        let r1 := if src_mode ≠ addr_mode.NONE
          then (true, d.pushOpmodes ECode.AS024) else (false, d)
        let r2 := validate_operand rule dst_mode false r1.2
        (r1.1 ∨ r2.1, r2.2)
      | 2 =>
        let r1 := validate_operand rule src_mode true d
        let r2 := validate_operand rule dst_mode false r1.2
        (r1.1 ∨ r2.1, r2.2)
      | _ => (true, d.pushOpmodes ECode.AS003)

/-! ### Machine-word emitters (`words.c`) -/

/-- `put_word`: append a node with `payload & 0xFF`, the ARE bit-field
(2 bits), and the label copied by `strncpy(.., MAX_LABEL_LEN - 1)` (at most
30 characters); `NULL` label becomes the empty string. -/
def put_word (IC : Int) (payload : Nat) (are : Nat) (image : List machine_word)
    (label : Option (List Char)) : List machine_word :=
  image ++ [⟨IC, (match label with | none => [] | some l => l.take 30), payload % 256, are % 4⟩]

/-- `toBinaryFirstWord`: `[opcode(4) | src(2) | dst(2)]`, ARE absolute,
IC advanced by one. -/
def toBinaryFirstWord (op : CommandsTable) (src dest : addr_mode) (IC : Int)
    (image : List machine_word) : Int × List machine_word :=
  let opc := opcode_value op % 16
  let s2 := to2bits src % 4
  let d2 := to2bits dest % 4
  (IC + 1, image ++ [⟨IC, [], (opc * 16 + s2 * 4 + d2) % 256, ARE_ABS⟩])

/-- `emit_addr_word`. -/
def emit_addr_word (symbol : List Char) (addr8 : Nat) (are : Nat) (IC : Int)
    (img : List machine_word) : Int × List machine_word :=
  (IC + 1, put_word IC addr8 are img (some symbol))

/-- `emit_imm_word`: payload `(unsigned)val & 0xFF`. -/
def emit_imm_word (val : Int) (IC : Int) (img : List machine_word) :
    Int × List machine_word :=
  (IC + 1, put_word IC (uCast8 val) ARE_ABS img none)

/-- `emit_regcode_pair`: `((rA & 0xF) << 4) | (rB & 0xF)`. -/
def emit_regcode_pair (rA rB : Int) (IC : Int) (img : List machine_word) :
    Int × List machine_word :=
  (IC + 1, put_word IC ((uCast rA % 16) * 16 + uCast rB % 16) ARE_ABS img none)

/-- `emit_regcode_single_dest`: register in the low nibble. -/
def emit_regcode_single_dest (r : Int) (IC : Int) (img : List machine_word) :
    Int × List machine_word :=
  (IC + 1, put_word IC (uCast r % 16) ARE_ABS img none)

/-- `emit_regcode_single_src`: register in the high nibble. -/
def emit_regcode_single_src (r : Int) (IC : Int) (img : List machine_word) :
    Int × List machine_word :=
  (IC + 1, put_word IC ((uCast r % 16) * 16) ARE_ABS img none)

/-- `emit_symbol_addr`: look the name up; a hit supplies
`(unsigned)value & 0xFF` and an ARE from the symbol kind, a miss the
placeholder payload 0 with ARE absolute; either way the word records the
name as its label reference. -/
def emit_symbol_addr (name : List Char) (symtab : List symbol_entry) (IC : Int)
    (img : List machine_word) : Int × List machine_word :=
  match find_symbol symtab name with
  | some cur =>
    let payload := uCast cur.value % 256
    let are := match cur.type with
      | symbol_type.EXTERNAL_SYMBOL => ARE_EXT
      | symbol_type.CODE_SYMBOL => ARE_REL
      | symbol_type.DATA_SYMBOL => ARE_REL
      | symbol_type.ENTRY_SYMBOL => ARE_REL
      | symbol_type.NONE_SYMBOL => ARE_ABS
    emit_addr_word name payload are IC img
  | none => emit_addr_word name 0 ARE_ABS IC img

/-- `report_matrix_error` (`functions.c`): one reporter call per error kind
(`functions.c` unit); the `MISSING_*` kinds and the `default` arm are
silent. -/
def report_matrix_error (e : matrix_error) (d : Diag) : Diag :=
  match e with
  | matrix_error.NO_BRACKETS => d.pushFuncs ECode.AS110
  | matrix_error.EMPTY_LABEL => d.pushFuncs ECode.AS110
  | matrix_error.LABEL_TOO_LONG => d.pushFuncs ECode.AS020
  | matrix_error.EMPTY_INDEX => d.pushFuncs ECode.AS111
  | matrix_error.INVALID_REGISTER => d.pushFuncs ECode.AS114
  | matrix_error.NON_REGISTER => d.pushFuncs ECode.AS113
  | matrix_error.JUNK_BETWEEN_BRACKETS => d.pushFuncs ECode.AS112
  | _ => d

/-- `split_matrix_ex` (`functions.c`): parse, report on error; on success the
slices are copied with `copy_slice_safe` into `base[64]`/`REGBUF_MAX`-sized
buffers (truncation to 63 and 2 characters). -/
def split_matrix_ex (token : List Char) (d : Diag) :
    Option (List Char × List Char × List Char) × Diag :=
  match parse_matrix_operand token with
  | matrix_parse_result.ok label r1 r2 => (some (label.take 63, r1.take 2, r2.take 2), d)
  | matrix_parse_result.err e => (none, report_matrix_error e d)

/-! ### Instruction encoder (`words.c`, `process_commands_words`) -/

/-- Outcome of one operand-encoding step (`flag` true means the source did
`goto out` with `rc` still -1). -/
structure enc_step where
  flag : Bool
  IC : Int
  image : List machine_word
  d : Diag

/-- The source-operand `switch` of `process_commands_words` (PHASE 4). -/
def encode_src_operand (src_mode : addr_mode) (src_tok : List Char)
    (symtab : List symbol_entry) (IC : Int) (image : List machine_word)
    (d : Diag) : enc_step :=
  match src_mode with
  | addr_mode.IMMEDIATE =>
    match parse_imm8 src_tok with
    | none => ⟨true, IC, image, d.pushWords ECode.AS023⟩
    | some v =>
      let r := emit_imm_word v IC image
      ⟨false, r.1, r.2, d⟩
  | addr_mode.DIRECT =>
    let r := emit_symbol_addr src_tok symtab IC image
    ⟨false, r.1, r.2, d⟩
  | addr_mode.REGISTER =>
    let r := reg_id src_tok
    if r < 0 then ⟨true, IC, image, d.pushWords ECode.AS023⟩
    else
      let r2 := emit_regcode_single_src r IC image
      ⟨false, r2.1, r2.2, d⟩
  | addr_mode.MATRIX =>
    match split_matrix_ex src_tok d with
    | (none, d1) => ⟨true, IC, image, d1⟩
    | (some (base, ra, rb), d1) =>
      let rA := reg_id ra
      let rB := reg_id rb
      if rA < 0 ∨ rB < 0 then ⟨true, IC, image, d1.pushWords ECode.AS023⟩
      else
        let r1 := emit_symbol_addr base symtab IC image
        let r2 := emit_regcode_pair rA rB r1.1 r1.2
        ⟨false, r2.1, r2.2, d1⟩
  | addr_mode.NONE => ⟨false, IC, image, d⟩

/-- The destination-operand `switch` of `process_commands_words` (PHASE 5). -/
def encode_dst_operand (dst_mode : addr_mode) (tok : List Char)
    (symtab : List symbol_entry) (IC : Int) (image : List machine_word)
    (d : Diag) : enc_step :=
  match dst_mode with
  | addr_mode.IMMEDIATE =>
    match parse_imm8 tok with
    | none => ⟨true, IC, image, d.pushWords ECode.AS023⟩
    | some v =>
      let r := emit_imm_word v IC image
      ⟨false, r.1, r.2, d⟩
  | addr_mode.DIRECT =>
    let r := emit_symbol_addr tok symtab IC image
    ⟨false, r.1, r.2, d⟩
  | addr_mode.REGISTER =>
    let r := reg_id tok
    if r < 0 then ⟨true, IC, image, d.pushWords ECode.AS023⟩
    else
      let r2 := emit_regcode_single_dest r IC image
      ⟨false, r2.1, r2.2, d⟩
  | addr_mode.MATRIX =>
    match split_matrix_ex tok d with
    | (none, d1) => ⟨true, IC, image, d1⟩
    | (some (base, ra, rb), d1) =>
      let rA := reg_id ra
      let rB := reg_id rb
      if rA < 0 ∨ rB < 0 then ⟨true, IC, image, d1.pushWords ECode.AS023⟩
      else
        let r1 := emit_symbol_addr base symtab IC image
        let r2 := emit_regcode_pair rA rB r1.1 r1.2
        ⟨false, r2.1, r2.2, d1⟩
  | addr_mode.NONE => ⟨false, IC, image, d⟩

/-- Result of `process_commands_words`: return code (0 success, -1 error),
updated IC, instruction image and diagnostics. -/
structure pcw_result where
  rc : Int
  IC : Int
  image : List machine_word
  d : Diag
  deriving DecidableEq

/-- `process_commands_words` (`words.c`): split operands, classify modes
(single operand counts as destination), validate, emit the first word, then
either the packed register-pair word (both-register optimization) or the
per-operand words; any operand failure is `goto out` with rc -1 (words
already emitted stay in the image). -/
def process_commands_words (cmd : CommandsTable) (line : List Char) (IC : Int)
    (image : List machine_word) (symtab : List symbol_entry) (d : Diag) :
    pcw_result :=
  let sp := split_operands line
  let operand_count := sp.1
  let src_tok := sp.2.1
  let dst_tok := sp.2.2
  let src_mode := if operand_count = 2 then get_addr_method src_tok
                  else addr_mode.NONE
  let dst_mode := if operand_count = 2 then get_addr_method dst_tok
                  else if operand_count = 1 then get_addr_method src_tok
                  else addr_mode.NONE
  let v := validate_modes_for_opcode cmd operand_count src_mode dst_mode d
  if v.1 then ⟨-1, IC, image, v.2⟩
  else
    let f := toBinaryFirstWord cmd src_mode dst_mode IC image
    if operand_count = 2 ∧ src_mode = addr_mode.REGISTER ∧
        dst_mode = addr_mode.REGISTER then
      let rS := reg_id src_tok
      let rD := reg_id dst_tok
      if rS < 0 ∨ rD < 0 then ⟨-1, f.1, f.2, v.2.pushWords ECode.AS023⟩
      else
        ⟨0, f.1 + 1,
         put_word f.1 ((uCast rS % 16) * 16 + uCast rD % 16) ARE_ABS f.2 none,
         v.2⟩
    else
      let se := if operand_count = 2
        then encode_src_operand src_mode src_tok symtab f.1 f.2 v.2
        else ⟨false, f.1, f.2, v.2⟩
      if se.flag then ⟨-1, se.IC, se.image, se.d⟩
      else
        let tok := if operand_count = 2 then dst_tok else src_tok
        let de := if 1 ≤ operand_count
          then encode_dst_operand dst_mode tok symtab se.IC se.image se.d
          else ⟨false, se.IC, se.image, se.d⟩
        if de.flag then ⟨-1, de.IC, de.image, de.d⟩
        else ⟨0, de.IC, de.image, de.d⟩

/-! ### Claim C6: both-register optimization -/

/-- Lower-case mnemonic text of an instruction (as it appears in source
lines; directives and `UNDEFINED` have no mnemonic here). -/
def mnemonic_text : CommandsTable → List Char
  | CommandsTable.MOV => ['m', 'o', 'v']
  | CommandsTable.CMP => ['c', 'm', 'p']
  | CommandsTable.ADD => ['a', 'd', 'd']
  | CommandsTable.SUB => ['s', 'u', 'b']
  | CommandsTable.NOT => ['n', 'o', 't']
  | CommandsTable.CLR => ['c', 'l', 'r']
  | CommandsTable.LEA => ['l', 'e', 'a']
  | CommandsTable.INC => ['i', 'n', 'c']
  | CommandsTable.DEC => ['d', 'e', 'c']
  | CommandsTable.JMP => ['j', 'm', 'p']
  | CommandsTable.BNE => ['b', 'n', 'e']
  | CommandsTable.RED => ['r', 'e', 'd']
  | CommandsTable.PRN => ['p', 'r', 'n']
  | CommandsTable.JSR => ['j', 's', 'r']
  | CommandsTable.RTS => ['r', 't', 's']
  | CommandsTable.STOP => ['s', 't', 'o', 'p']
  | _ => []

/-- The register token `rN`. -/
def reg_tok (x : Fin 8) : List Char := ['r', Char.ofNat (48 + x.val)]

/-- The instruction line `<mnemonic> rX, rY`. -/
def reg_pair_line (cmd : CommandsTable) (x y : Fin 8) : List Char :=
  mnemonic_text cmd ++ ' ' :: reg_tok x ++ ',' :: ' ' :: reg_tok y

lemma reg_tok_get_addr (x : Fin 8) :
    get_addr_method (reg_tok x) = addr_mode.REGISTER := by
  revert x; decide

lemma reg_tok_reg_id (x : Fin 8) : reg_id (reg_tok x) = (x.val : Int) := by
  revert x; decide

lemma reg_tok_uCast (x : Fin 8) : uCast (x.val : Int) % 16 = x.val := by
  revert x; decide

/-- Claim C6 (counterexample): `lea` is a two-operand instruction and in
`lea r1, r2` both operands are in Register mode, yet the encoder emits no
machine word at all: Register is an illegal source mode for `lea`, the mode
check reports an error (AS022 in the `opmodes.c` unit) and encoding aborts
before the first word. -/
theorem register_pair_lea_counterexample :
    split_operands (reg_pair_line CommandsTable.LEA 1 2) =
      (2, reg_tok 1, reg_tok 2) ∧
    get_addr_method (reg_tok 1) = addr_mode.REGISTER ∧
    get_addr_method (reg_tok 2) = addr_mode.REGISTER ∧
    process_commands_words CommandsTable.LEA (reg_pair_line CommandsTable.LEA 1 2)
        100 [] [] Diag.empty =
      ⟨-1, 100, [], Diag.mk [] [] [ECode.AS022] []⟩ := by
  refine ⟨by decide, by decide, by decide, ?_⟩
  decide

/-- Claim C6 (amended): for every two-operand instruction whose rule admits
Register for both slots (`mov`, `cmp`, `add`, `sub`) applied to two register
operands `rX, rY`, exactly two machine words are emitted: the first word,
plus a single packed register word with payload `(X << 4) | Y` (0x12 for
`r1, r2`) and ARE = Absolute; no separate per-register words follow.  (`lea`,
the remaining two-operand instruction, rejects a Register source before
emitting anything.) -/
theorem register_pair_single_extra_word (cmd : CommandsTable)
    (hc : cmd = CommandsTable.MOV ∨ cmd = CommandsTable.CMP ∨
      cmd = CommandsTable.ADD ∨ cmd = CommandsTable.SUB)
    (x y : Fin 8) (IC : Int) (image : List machine_word)
    (symtab : List symbol_entry) (d : Diag) :
    process_commands_words cmd (reg_pair_line cmd x y) IC image symtab d =
      ⟨0, IC + 1 + 1,
       (image ++ [⟨IC, [], opcode_value cmd * 16 + 15, ARE_ABS⟩]) ++
         [⟨IC + 1, [], x.val * 16 + y.val, ARE_ABS⟩], d⟩ := by
  have hx0 : ¬ ((x.val : Int) < 0 ∨ (y.val : Int) < 0) := by
    push_neg
    exact ⟨Int.natCast_nonneg _, Int.natCast_nonneg _⟩
  have hpay : (x.val * 16 + y.val) % 256 = x.val * 16 + y.val :=
    Nat.mod_eq_of_lt (by have := x.isLt; have := y.isLt; omega)
  have hsplit : split_operands (reg_pair_line cmd x y) = (2, reg_tok x, reg_tok y) := by
    rcases hc with rfl | rfl | rfl | rfl <;> (revert x y; decide)
  rcases hc with rfl | rfl | rfl | rfl <;>
  (simp only [process_commands_words, hsplit, reg_tok_get_addr, reg_tok_reg_id]
   simp only [validate_modes_for_opcode, opcode_rule, validate_operand,
     mode_bit, toBinaryFirstWord, to2bits, opcode_value, put_word, ARE_ABS,
     reg_tok_uCast, hpay]
   simp +decide [hx0, hpay, reg_tok_uCast, AM_ALL, AM_REG])

theorem register_pair_single_extra_word_witness :
    process_commands_words CommandsTable.MOV
        (reg_pair_line CommandsTable.MOV 1 2) 100 [] [] Diag.empty =
      ⟨0, 100 + 1 + 1,
       ([] ++ [⟨100, [], opcode_value CommandsTable.MOV * 16 + 15, ARE_ABS⟩]) ++
         [⟨100 + 1, [], (1 : Fin 8).val * 16 + (2 : Fin 8).val, ARE_ABS⟩],
       Diag.empty⟩ :=
  register_pair_single_extra_word CommandsTable.MOV (Or.inl rfl) 1 2 100 [] []
    Diag.empty

/-! ### Claim C9: immediate-operand acceptance -/

lemma c_isspace_not_digit (c : Char) (h : c_isspace c = true) :
    c_isdigit c = false := by
  unfold c_isspace at h
  rcases (by simpa using h) with rfl | rfl | rfl | rfl | rfl | rfl <;> decide

lemma c_isdigit_not_space (c : Char) (h : c_isdigit c = true) :
    c_isspace c = false := by
  cases hs : c_isspace c
  · rfl
  · rw [c_isspace_not_digit c hs] at h
    cases h

lemma c_isdigit_ne_sign (c : Char) (h : c_isdigit c = true) :
    c ≠ '+' ∧ c ≠ '-' := by
  unfold c_isdigit at h
  rcases (by simpa using h : '0' ≤ c ∧ c ≤ '9') with ⟨h1, h2⟩
  constructor <;> rintro rfl <;> revert h1 <;> decide

lemma dropWhile_append_all (p : Char → Bool) (w t : List Char)
    (hw : ∀ c ∈ w, p c = true) :
    (w ++ t).dropWhile p = t.dropWhile p := by
  induction w with
  | nil => rfl
  | cons a w ih =>
    have ha := hw a (by simp)
    simp only [List.cons_append, List.dropWhile_cons, ha, if_true]
    exact ih (fun c hc => hw c (by simp [hc]))

lemma takeWhile_append_stop (p : Char → Bool) (ds t : List Char)
    (hds : ∀ c ∈ ds, p c = true)
    (ht : ∀ c ∈ t.take 1, p c = false) :
    (ds ++ t).takeWhile p = ds ∧ (ds ++ t).dropWhile p = t := by
  induction ds with
  | nil =>
    simp only [List.nil_append]
    cases t with
    | nil => simp
    | cons c0 t' =>
      have h0 := ht c0 (by simp)
      simp [List.takeWhile_cons, List.dropWhile_cons, h0]
  | cons a ds ih =>
    have ha := hds a (by simp)
    have ih' := ih (fun c hc => hds c (by simp [hc]))
    simp [List.takeWhile_cons, List.dropWhile_cons, ha, ih'.1, ih'.2]


/-- Decomposition delivered by a successful `strtol10` call. -/
lemma strtol10_some (s : List Char) (v : Int) (after : List Char)
    (h : strtol10 s = some (v, after)) :
    ∃ w1 sgn ds,
      s = w1 ++ sgn ++ ds ++ after ∧
      (∀ c ∈ w1, c_isspace c = true) ∧
      (sgn = [] ∨ sgn = ['+'] ∨ sgn = ['-']) ∧
      ds ≠ [] ∧ (∀ c ∈ ds, c_isdigit c = true) ∧
      v = (if sgn = ['-'] then - strtol_accum ds else strtol_accum ds) := by
  have hsplit := List.takeWhile_append_dropWhile c_isspace s
  have hw1mem : ∀ c ∈ s.takeWhile c_isspace, c_isspace c = true :=
    fun c hc => List.mem_takeWhile_imp hc
  unfold strtol10 at h
  cases hr0 : s.dropWhile c_isspace with
  | nil => rw [hr0] at h; cases h
  | cons c0 r =>
    rw [hr0] at h
    rw [hr0] at hsplit
    simp only [strtol10cont] at h
    by_cases hp : c0 = '+'
    · subst hp
      rw [if_pos rfl] at h
      simp only [strtol_digits, Bool.false_eq_true, if_false] at h
      by_cases hds : r.takeWhile c_isdigit = []
      · rw [if_pos hds] at h; cases h
      · rw [if_neg hds] at h
        simp only [Option.some.injEq, Prod.mk.injEq] at h
        have hr2 : r = r.takeWhile c_isdigit ++ after := by
          conv_lhs => rw [← List.takeWhile_append_dropWhile c_isdigit r]
          rw [h.2]
        refine ⟨s.takeWhile c_isspace, ['+'], r.takeWhile c_isdigit, ?_,
          hw1mem, Or.inr (Or.inl rfl), hds,
          fun c hc => List.mem_takeWhile_imp hc, ?_⟩
        · conv_lhs => rw [hsplit.symm, hr2]
          simp
        · rw [if_neg (show ¬ (['+'] : List Char) = ['-'] by decide)]
          exact h.1.symm
    · by_cases hm : c0 = '-'
      · subst hm
        rw [if_neg (show ¬ ('-' : Char) = '+' by decide), if_pos rfl] at h
        simp only [strtol_digits, if_true] at h
        by_cases hds : r.takeWhile c_isdigit = []
        · rw [if_pos hds] at h; cases h
        · rw [if_neg hds] at h
          simp only [Option.some.injEq, Prod.mk.injEq] at h
          have hr2 : r = r.takeWhile c_isdigit ++ after := by
            conv_lhs => rw [← List.takeWhile_append_dropWhile c_isdigit r]
            rw [h.2]
          refine ⟨s.takeWhile c_isspace, ['-'], r.takeWhile c_isdigit, ?_,
            hw1mem, Or.inr (Or.inr rfl), hds,
            fun c hc => List.mem_takeWhile_imp hc, ?_⟩
          · conv_lhs => rw [hsplit.symm, hr2]
            simp
          · rw [if_pos rfl]
            exact h.1.symm
      · rw [if_neg hp, if_neg hm] at h
        simp only [strtol_digits, Bool.false_eq_true, if_false] at h
        by_cases hds : (c0 :: r).takeWhile c_isdigit = []
        · rw [if_pos hds] at h; cases h
        · rw [if_neg hds] at h
          simp only [Option.some.injEq, Prod.mk.injEq] at h
          have hr2 : c0 :: r = (c0 :: r).takeWhile c_isdigit ++ after := by
            conv_lhs => rw [← List.takeWhile_append_dropWhile c_isdigit (c0 :: r)]
            rw [h.2]
          refine ⟨s.takeWhile c_isspace, [], (c0 :: r).takeWhile c_isdigit, ?_,
            hw1mem, Or.inl rfl, hds,
            fun c hc => List.mem_takeWhile_imp hc, ?_⟩
          · conv_lhs => rw [hsplit.symm, hr2]
            simp
          · rw [if_neg (show ¬ ([] : List Char) = ['-'] by decide)]
            exact h.1.symm

/-- Evaluation of `strtol10` on a decomposed input. -/
lemma strtol10_of_shape (w1 sgn ds w2 : List Char)
    (hw1 : ∀ c ∈ w1, c_isspace c = true)
    (hsgn : sgn = [] ∨ sgn = ['+'] ∨ sgn = ['-'])
    (hne : ds ≠ []) (hds : ∀ c ∈ ds, c_isdigit c = true)
    (hw2 : ∀ c ∈ w2, c_isspace c = true) :
    strtol10 (w1 ++ sgn ++ ds ++ w2) =
      some ((if sgn = ['-'] then - strtol_accum ds else strtol_accum ds), w2) := by
  have ht : ∀ c ∈ w2.take 1, c_isdigit c = false := by
    intro c hc
    exact c_isspace_not_digit c (hw2 c (List.mem_of_mem_take hc))
  have htws := takeWhile_append_stop c_isdigit ds w2 hds ht
  unfold strtol10
  have hdrop1 : (w1 ++ sgn ++ ds ++ w2).dropWhile c_isspace =
      (sgn ++ ds ++ w2).dropWhile c_isspace := by
    rw [List.append_assoc, List.append_assoc]
    rw [dropWhile_append_all c_isspace w1 _ hw1]
    rw [← List.append_assoc]
  rcases hsgn with rfl | rfl | rfl
  · simp only [List.nil_append] at hdrop1 ⊢
    cases ds with
    | nil => exact absurd rfl hne
    | cons d0 ds' =>
      have hd0 := hds d0 (by simp)
      have hnsp := c_isdigit_not_space d0 hd0
      have hd0sign := c_isdigit_ne_sign d0 hd0
      rw [hdrop1]
      simp only [List.cons_append, List.dropWhile_cons, hnsp,
        Bool.false_eq_true, if_false]
      simp only [strtol10cont]
      rw [if_neg hd0sign.1, if_neg hd0sign.2]
      simp only [strtol_digits, Bool.false_eq_true, if_false]
      have h1 : ((d0 :: ds') ++ w2).takeWhile c_isdigit = d0 :: ds' := htws.1
      have h2 : ((d0 :: ds') ++ w2).dropWhile c_isdigit = w2 := htws.2
      simp only [List.cons_append] at h1 h2
      rw [h1, h2]
      rw [if_neg (show ¬ (d0 :: ds') = ([] : List Char) by simp)]
      rw [if_neg (show ¬ ([] : List Char) = ['-'] by decide)]
  · rw [hdrop1]
    simp only [List.cons_append, List.dropWhile_cons,
      show c_isspace '+' = false by decide, Bool.false_eq_true, if_false]
    simp only [strtol10cont, if_true]
    simp only [strtol_digits, Bool.false_eq_true, if_false, List.nil_append]
    rw [htws.1, htws.2]
    rw [if_neg hne]
    rw [if_neg (show ¬ (['+'] : List Char) = ['-'] by decide)]
  · rw [hdrop1]
    simp only [List.cons_append, List.dropWhile_cons,
      show c_isspace '-' = false by decide, Bool.false_eq_true, if_false]
    simp only [strtol10cont,
      show ¬ (('-' : Char) = '+') by decide, if_false, if_true]
    simp only [strtol_digits, if_true]
    rw [List.nil_append, htws.1, htws.2]
    rw [if_neg hne]

/-- Claim C9 (amended): the instruction encoder accepts an immediate operand
token exactly when it is `#`, then optional whitespace, then an optionally
signed decimal `N` with `-128 ≤ N ≤ 127, then nothing but trailing
whitespace (`strtol` skips whitespace after the `#` as well as before the
end); for every other immediate token the encoder's immediate branches report
an error (AS023, `words.c` unit) and emit no immediate operand word. -/
theorem parse_imm8_accepts (tok : List Char) :
    (∀ v : Int,
      parse_imm8 tok = some v ↔
        ∃ w1 sgn ds w2,
          tok = '#' :: (w1 ++ sgn ++ ds ++ w2) ∧
          (∀ c ∈ w1, c_isspace c = true) ∧
          (sgn = [] ∨ sgn = ['+'] ∨ sgn = ['-']) ∧
          ds ≠ [] ∧ (∀ c ∈ ds, c_isdigit c = true) ∧
          (∀ c ∈ w2, c_isspace c = true) ∧
          v = (if sgn = ['-'] then - strtol_accum ds else strtol_accum ds) ∧
          -128 ≤ v ∧ v ≤ 127) ∧
    (parse_imm8 tok = none →
      ∀ (symtab : List symbol_entry) (IC : Int) (image : List machine_word)
        (d : Diag),
        encode_src_operand addr_mode.IMMEDIATE tok symtab IC image d =
          ⟨true, IC, image, d.pushWords ECode.AS023⟩ ∧
        encode_dst_operand addr_mode.IMMEDIATE tok symtab IC image d =
          ⟨true, IC, image, d.pushWords ECode.AS023⟩) := by
  constructor
  · intro v
    constructor
    · intro h
      cases tok with
      | nil => simp [parse_imm8] at h
      | cons c rest =>
        by_cases hc : c = '#'
        · subst hc
          cases hst : strtol10 rest with
          | none => simp [parse_imm8, hst] at h
          | some p =>
            obtain ⟨v0, after⟩ := p
            simp only [parse_imm8, hst, ne_eq, not_true_eq_false, if_false,
              ite_not] at h
            split at h
            · split at h
              · cases h
              · rename_i hdw hrange
                simp only [Option.some.injEq] at h
                subst h
                obtain ⟨w1, sgn, ds, heq, hw1, hsgn, hne, hds, hv⟩ :=
                  strtol10_some rest v0 after hst
                refine ⟨w1, sgn, ds, after, by rw [heq], hw1, hsgn, hne, hds,
                  List.dropWhile_eq_nil_iff.mp hdw, hv, ?_, ?_⟩ <;> omega
            · cases h
        · simp [parse_imm8, hc] at h
    · rintro ⟨w1, sgn, ds, w2, rfl, hw1, hsgn, hne, hds, hw2, hv, hlo, hhi⟩
      have hdw : w2.dropWhile c_isspace = [] := List.dropWhile_eq_nil_iff.mpr hw2
      have hval := strtol10_of_shape w1 sgn ds w2 hw1 hsgn hne hds hw2
      rw [← hv] at hval
      simp only [parse_imm8, hval, hdw, ne_eq, not_true_eq_false, if_false]
      rw [if_neg (show ¬ (v < -128 ∨ 127 < v) by omega)]
  · intro h symtab IC image d
    constructor
    · simp [encode_src_operand, h]
    · simp [encode_dst_operand, h]

theorem parse_imm8_accepts_witness :
    parse_imm8 ['#'] = none ∧
    (encode_src_operand addr_mode.IMMEDIATE ['#'] [] 100 [] Diag.empty =
      ⟨true, 100, [], Diag.empty.pushWords ECode.AS023⟩ ∧
     encode_dst_operand addr_mode.IMMEDIATE ['#'] [] 100 [] Diag.empty =
      ⟨true, 100, [], Diag.empty.pushWords ECode.AS023⟩) :=
  ⟨by decide,
   (parse_imm8_accepts ['#']).2 (by decide) [] 100 [] Diag.empty⟩

/-- Claim C9 (counterexample): the token `"# 5"` — `#`, a space, then the
digit — is accepted by `parse_imm8` (value 5), although it is not `#`
followed by a signed decimal with only trailing whitespace after the digits:
the character after `#` is neither a sign nor a digit. -/
theorem parse_imm8_whitespace_counterexample :
    parse_imm8 ['#', ' ', '5'] = some 5 ∧
    ¬ ∃ sgn ds w2,
        (['#', ' ', '5'] : List Char) = '#' :: (sgn ++ ds ++ w2) ∧
        (sgn = [] ∨ sgn = ['+'] ∨ sgn = ['-']) ∧
        ds ≠ [] ∧ (∀ c ∈ ds, c_isdigit c = true) ∧
        (∀ c ∈ w2, c_isspace c = true) := by
  constructor
  · decide
  · rintro ⟨sgn, ds, w2, heq, hsgn, hne, hds, hw2⟩
    have htail : ([' ', '5'] : List Char) = sgn ++ ds ++ w2 := by
      injection heq
    rcases hsgn with rfl | rfl | rfl
    · simp only [List.nil_append] at htail
      cases ds with
      | nil => exact hne rfl
      | cons d0 ds' =>
        have htail2 : ([' ', '5'] : List Char) = d0 :: (ds' ++ w2) := htail
        injection htail2 with ha hb
        have hd := hds d0 (by simp)
        rw [← ha] at hd
        exact absurd hd (by decide)
    · have : (' ' : Char) = '+' := by injection htail
      exact absurd this (by decide)
    · have : (' ' : Char) = '-' := by injection htail
      exact absurd this (by decide)

/-! ### Directive processors (`functions.c`) -/

/-- `strstr`: first suffix of the haystack that starts with the needle. -/
def strstr : List Char → List Char → Option (List Char)
  | hay, needle =>
    if needle.isPrefixOf hay then some hay
    else
      match hay with
      | [] => none
      | _ :: t => strstr t needle

/-- `create_data_word` (`words.c`): the `int` value is stored into the
`unsigned short value` field. -/
def create_data_word (value : Int) (address : Int) : data_word :=
  ⟨address, (value.emod 65536).toNat⟩

/-- `in_data_range` (`functions.c`): `[DATA_MIN, DATA_MAX] = [-128, 127]`. -/
def in_data_range (v : Int) : Bool := -128 ≤ v ∧ v ≤ 127

/-- `parse_bracketed_pos_int` (`functions.c`): `[`, optional whitespace, a
`strtol` number that must be positive, optional whitespace, `]`. -/
def parse_bracketed_pos_int (p : List Char) : Option (Int × List Char) :=
  match skip_ws p with
  | '[' :: p2 =>
    (match strtol10 (skip_ws p2) with
     | none => none
     | some (v, p4) =>
       if v ≤ 0 then none
       else
         match skip_ws p4 with
         | ']' :: p6 => some (v, p6)
         | _ => none)
  | _ => none

/-- Value loop of `process_data_directive_at`: alternating number/comma state
machine.  Result: (rc, DC, data image, diagnostics, `expect_value`,
`last_comma != NULL`).  Fuel bounds the iteration count by the remaining
length, which the source loop never exceeds either. -/
def data_vals_loop : Nat → List Char → Bool → Bool → Int → Int →
    List data_word → Diag → Int × Int × List data_word × Diag × Bool × Bool
  | 0, _, expect, lastc, DC, _, img, d => (0, DC, img, d, expect, lastc)
  | fuel + 1, p, expect, lastc, DC, IC, img, d =>
    match skip_ws p with
    | [] => (0, DC, img, d, expect, lastc)
    | c :: rest =>
      if expect then
        if c = ',' then (-1, DC, img, d.pushFuncs ECode.AS310, expect, lastc)
        else
          match strtol10 (c :: rest) with
          | none => (-1, DC, img, d.pushFuncs ECode.AS311, expect, lastc)
          | some (value, after) =>
            if ¬ in_data_range value then
              (-1, DC, img, d.pushFuncs ECode.AS312, expect, lastc)
            else
              data_vals_loop fuel after false lastc (DC + 1) IC
                (img ++ [create_data_word value (DC + IC)]) d
      else
        if ¬ c = ',' then (-1, DC, img, d.pushFuncs ECode.AS313, expect, lastc)
        else data_vals_loop fuel rest true true DC IC img d

/-- `process_data_directive_at` (`functions.c`): strip the comment, find
`.data`, run the value loop, and reject a trailing comma.  Result:
(rc, DC, data image, diagnostics); on error the words already emitted stay in
the image, as in the source. -/
def process_data_directive_at (line : List Char) (DC : Int)
    (dataImg : List data_word) (IC : Int) (d : Diag) :
    Int × Int × List data_word × Diag :=
  match strstr (strip_inline_comment line) ['.', 'd', 'a', 't', 'a'] with
  | none => (-1, DC, dataImg, d)
  | some tail =>
    let p := tail.drop 5
    match data_vals_loop (p.length + 1) p true false DC IC dataImg d with
    | (rc, DC', img', d', expectv, lastc) =>
      if ¬ rc = 0 then (rc, DC', img', d')
      else if expectv ∧ lastc then (-1, DC', img', d'.pushFuncs ECode.AS314)
      else (0, DC', img', d')

/-- Character-emission loop of `process_string_directive_at`: one data word
per character before the closing quote, at address `DC + IC`. -/
def string_chars_words : List Char → Int → Int → List data_word →
    Int × List data_word
  | [], DC, _, img => (DC, img)
  | c :: rest, DC, IC, img =>
    string_chars_words rest (DC + 1) IC
      (img ++ [create_data_word (c.toNat : Int) (DC + IC)])

/-- `process_string_directive_at` (`functions.c`): find `.string`, require an
opening quote, emit one word per character up to the closing quote plus a
terminating zero word; an unterminated literal is an error after the
characters seen so far were already emitted. -/
def process_string_directive_at (line : List Char) (DC : Int)
    (dataImg : List data_word) (IC : Int) (d : Diag) :
    Int × Int × List data_word × Diag :=
  match strstr (strip_inline_comment line)
      ['.', 's', 't', 'r', 'i', 'n', 'g'] with
  | none => (-1, DC, dataImg, d)
  | some tail =>
    match skip_ws (tail.drop 7) with
    | '"' :: p1 =>
      let content := p1.takeWhile (fun c => c ≠ '"')
      let r := string_chars_words content DC IC dataImg
      (match p1.dropWhile (fun c => c ≠ '"') with
       | '"' :: _ => (0, r.1 + 1, r.2 ++ [create_data_word 0 (r.1 + IC)], d)
       | _ => (-1, r.1, r.2, d.pushFuncs ECode.AS321))
    | _ => (-1, DC, dataImg, d.pushFuncs ECode.AS320)

/-- Initializer loop of `process_matrix_directive_at`: like the `.data` loop
but capped by the cell count, with lookahead detection of a trailing comma.
Result: (rc, produced, DC, data image, diagnostics). -/
def mat_vals_loop : Nat → List Char → Bool → Int → Int → Int → Int →
    List data_word → Diag → Int × Int × Int × List data_word × Diag
  | 0, _, _, produced, _, DC, _, img, d => (0, produced, DC, img, d)
  | fuel + 1, p, expect, produced, total, DC, IC, img, d =>
    match skip_ws p with
    | [] => (0, produced, DC, img, d)
    | c :: rest =>
      if expect then
        if c = ',' then (-1, produced, DC, img, d.pushFuncs ECode.AS304)
        else
          match strtol10 (c :: rest) with
          | none => (-1, produced, DC, img, d.pushFuncs ECode.AS305)
          | some (value, after) =>
            if ¬ in_data_range value then
              (-1, produced, DC, img, d.pushFuncs ECode.AS306)
            else if total ≤ produced then
              (-1, produced, DC, img, d.pushFuncs ECode.AS307)
            else
              mat_vals_loop fuel after false (produced + 1) total (DC + 1) IC
                (img ++ [create_data_word value (DC + IC)]) d
      else
        if c = ',' then
          if skip_ws rest = [] then
            (-1, produced, DC, img, d.pushFuncs ECode.AS309)
          else mat_vals_loop fuel rest true produced total DC IC img d
        else (-1, produced, DC, img, d.pushFuncs ECode.AS308)

/-- Zero-fill loop of `process_matrix_directive_at`: remaining cells default
to zero. -/
def mat_fill_zeros : Nat → Int → Int → List data_word → Int × List data_word
  | 0, DC, _, img => (DC, img)
  | n + 1, DC, IC, img =>
    mat_fill_zeros n (DC + 1) IC (img ++ [create_data_word 0 (DC + IC)])

/-- `process_matrix_directive_at` (`functions.c`): find `.mat`, parse
`[rows]` and `[cols]`, reject `rows > LONG_MAX_L / cols` (`LONG_MAX_L = 100`)
as a dimensions overflow before emitting anything, then run the initializer
loop and zero-fill up to `rows * cols` cells. -/
def process_matrix_directive_at (line : List Char) (DC : Int)
    (dataImg : List data_word) (IC : Int) (d : Diag) :
    Int × Int × List data_word × Diag :=
  match strstr (strip_inline_comment line) ['.', 'm', 'a', 't'] with
  | none => (-1, DC, dataImg, d)
  | some mat =>
    let p := skip_ws (mat.drop 4)
    match parse_bracketed_pos_int p with
    | none => (-1, DC, dataImg, d.pushFuncs ECode.AS301)
    | some (rows, p1) =>
      match parse_bracketed_pos_int p1 with
      | none => (-1, DC, dataImg, d.pushFuncs ECode.AS302)
      | some (cols, p2) =>
        if 0 < rows ∧ 0 < cols ∧ 100 / cols < rows then
          (-1, DC, dataImg, d.pushFuncs ECode.AS303)
        else
          let total := rows * cols
          let p3 := skip_ws p2
          match (if ¬ p3 = [] then
              mat_vals_loop (p3.length + 1) p3 true 0 total DC IC dataImg d
            else (0, 0, DC, dataImg, d)) with
          | (rc, produced, DC', img', d') =>
            if ¬ rc = 0 then (rc, DC', img', d')
            else
              match mat_fill_zeros (total - produced).toNat DC' IC img' with
              | (DC2, img2) => (0, DC2, img2, d')

/-- `process_data_string_mat` (`functions.c`): route by directive kind. -/
def process_data_string_mat (cmd : CommandsTable) (line : List Char) (DC : Int)
    (dataImg : List data_word) (IC : Int) (d : Diag) :
    Int × Int × List data_word × Diag :=
  match cmd with
  | CommandsTable.DATA => process_data_directive_at line DC dataImg IC d
  | CommandsTable.STRING => process_string_directive_at line DC dataImg IC d
  | CommandsTable.MATRIX => process_matrix_directive_at line DC dataImg IC d
  | _ => (-1, DC, dataImg, d)


/-! ### Claim C10: matrix capacity -/

lemma pbpi_pos (p : List Char) (v : Int) (rest : List Char)
    (h : parse_bracketed_pos_int p = some (v, rest)) : 0 < v := by
  unfold parse_bracketed_pos_int at h
  split at h
  · split at h
    · cases h
    · split at h
      · cases h
      · split at h
        · simp only [Option.some.injEq, Prod.mk.injEq] at h
          omega
        · cases h
  · cases h

lemma mat_fill_zeros_spec (n : Nat) : ∀ (DC IC : Int) (img : List data_word),
    (mat_fill_zeros n DC IC img).1 = DC + n ∧
    (mat_fill_zeros n DC IC img).2.length = img.length + n := by
  induction n with
  | zero => intro DC IC img; simp [mat_fill_zeros]
  | succ n ih =>
    intro DC IC img
    have h := ih (DC + 1) IC (img ++ [create_data_word 0 (DC + IC)])
    simp only [mat_fill_zeros, h.1, h.2]
    constructor
    · push_cast
      ring
    · simp
      omega

lemma mat_vals_loop_spec (fuel : Nat) : ∀ (p : List Char) (e : Bool)
    (produced total DC IC : Int) (img : List data_word) (d : Diag),
    produced ≤ (mat_vals_loop fuel p e produced total DC IC img d).2.1 ∧
    ((mat_vals_loop fuel p e produced total DC IC img d).2.1 ≤
        max produced total) ∧
    ((mat_vals_loop fuel p e produced total DC IC img d).2.2.2.1).length =
      img.length +
        ((mat_vals_loop fuel p e produced total DC IC img d).2.1 -
          produced).toNat ∧
    ((mat_vals_loop fuel p e produced total DC IC img d).2.2.2.2.funcs =
        d.funcs ∨
      ∃ c, ¬ c = ECode.AS303 ∧
        (mat_vals_loop fuel p e produced total DC IC img d).2.2.2.2.funcs =
          d.funcs ++ [c]) ∧
    DC ≤ (mat_vals_loop fuel p e produced total DC IC img d).2.2.1 := by
  induction fuel with
  | zero =>
    intro p e produced total DC IC img d
    simp [mat_vals_loop]
  | succ fuel ih =>
    intro p e produced total DC IC img d
    unfold mat_vals_loop
    cases hsw : skip_ws p with
    | nil => simp
    | cons c rest =>
      by_cases he : e
      · simp only [he, if_true]
        by_cases hcomma : c = ','
        · simp [hcomma, Diag.pushFuncs]
        · simp only [hcomma, if_false]
          cases hst : strtol10 (c :: rest) with
          | none => simp [Diag.pushFuncs]
          | some pr =>
            obtain ⟨value, after⟩ := pr
            simp only
            by_cases hrange : in_data_range value
            · rw [if_neg (by simp [hrange])]
              by_cases htot : total ≤ produced
              · simp [htot, Diag.pushFuncs]
              · rw [if_neg htot]
                have h := ih after false (produced + 1) total (DC + 1) IC
                  (img ++ [create_data_word value (DC + IC)]) d
                refine ⟨by omega, by omega, ?_, h.2.2.2.1, by omega⟩
                rw [h.2.2.1]
                simp only [List.length_append, List.length_cons,
                  List.length_nil]
                omega
            · simp [hrange, Diag.pushFuncs]
      · simp only [he, if_false]
        by_cases hcomma : c = ','
        · simp only [hcomma, if_true]
          by_cases hlook : skip_ws rest = []
          · simp [hlook, Diag.pushFuncs]
          · simp only [hlook, if_false]
            have h := ih rest true produced total DC IC img d
            exact ⟨h.1, h.2.1, h.2.2.1, h.2.2.2.1, h.2.2.2.2⟩
        · simp [hcomma, Diag.pushFuncs]

lemma pmda_eval (line : List Char) (DC IC : Int) (dataImg : List data_word)
    (d : Diag) (tail p1 p2 : List Char) (rows cols : Int)
    (hs : strstr (strip_inline_comment line) ['.', 'm', 'a', 't'] = some tail)
    (h1 : parse_bracketed_pos_int (skip_ws (tail.drop 4)) = some (rows, p1))
    (h2 : parse_bracketed_pos_int p1 = some (cols, p2))
    (hg : ¬ (0 < rows ∧ 0 < cols ∧ 100 / cols < rows)) :
    process_matrix_directive_at line DC dataImg IC d =
      (fun r =>
        if ¬ r.1 = 0 then (r.1, r.2.2.1, r.2.2.2.1, r.2.2.2.2)
        else
          ((0 : Int),
            (mat_fill_zeros (rows * cols - r.2.1).toNat r.2.2.1 IC
              r.2.2.2.1).1,
            (mat_fill_zeros (rows * cols - r.2.1).toNat r.2.2.1 IC
              r.2.2.2.1).2,
            r.2.2.2.2))
      (if ¬ skip_ws p2 = [] then
          mat_vals_loop ((skip_ws p2).length + 1) (skip_ws p2) true 0
            (rows * cols) DC IC dataImg d
        else (0, 0, DC, dataImg, d)) := by
  unfold process_matrix_directive_at
  rw [hs]
  simp only [h1, h2]
  rw [if_neg hg]

/-- Claim C10: a `.mat` directive whose bracketed dimensions parse as
positive integers `rows` and `cols` is rejected with the dimensions-overflow
error AS303 — before any data word is emitted, with IC, DC, the data image
and the other diagnostics untouched — exactly when `rows > 100 / cols` in
C integer division (`LONG_MAX_L = 100`); and whenever the directive
succeeds, it emits exactly `rows * cols ≤ 100` data words. -/
theorem mat_dimensions_capacity (line : List Char) (DC IC : Int)
    (dataImg : List data_word) (d : Diag) (tail p1 p2 : List Char)
    (rows cols : Int)
    (hs : strstr (strip_inline_comment line) ['.', 'm', 'a', 't'] = some tail)
    (h1 : parse_bracketed_pos_int (skip_ws (tail.drop 4)) = some (rows, p1))
    (h2 : parse_bracketed_pos_int p1 = some (cols, p2)) :
    (process_matrix_directive_at line DC dataImg IC d =
        (-1, DC, dataImg, d.pushFuncs ECode.AS303) ↔ 100 / cols < rows) ∧
    ((process_matrix_directive_at line DC dataImg IC d).1 = 0 →
      rows * cols ≤ 100 ∧
      ((process_matrix_directive_at line DC dataImg IC d).2.2.1).length =
        dataImg.length + (rows * cols).toNat) := by
  have hrows := pbpi_pos _ _ _ h1
  have hcols := pbpi_pos _ _ _ h2
  by_cases hguard : 100 / cols < rows
  · have heval : process_matrix_directive_at line DC dataImg IC d =
        (-1, DC, dataImg, d.pushFuncs ECode.AS303) := by
      unfold process_matrix_directive_at
      rw [hs]
      simp only [h1, h2]
      rw [if_pos ⟨hrows, hcols, hguard⟩]
    rw [heval]
    refine ⟨⟨fun _ => hguard, fun _ => rfl⟩, fun h => absurd h (by simp)⟩
  · have heval := pmda_eval line DC IC dataImg d tail p1 p2 rows cols hs h1 h2
      (fun h => hguard h.2.2)
    have hmul : rows * cols ≤ 100 := by
      have hle : rows ≤ 100 / cols := by omega
      exact (Int.le_ediv_iff_mul_le hcols).mp hle
    have htotnn : (0 : Int) ≤ rows * cols := by positivity
    set r := (if ¬ skip_ws p2 = [] then
        mat_vals_loop ((skip_ws p2).length + 1) (skip_ws p2) true 0
          (rows * cols) DC IC dataImg d
      else (0, 0, DC, dataImg, d)) with hr
    have hspec : 0 ≤ r.2.1 ∧ r.2.1 ≤ rows * cols ∧
        (r.2.2.2.1).length = dataImg.length + (r.2.1).toNat ∧
        (r.2.2.2.2.funcs = d.funcs ∨
          ∃ c, ¬ c = ECode.AS303 ∧ r.2.2.2.2.funcs = d.funcs ++ [c]) := by
      rw [hr]
      by_cases hp3 : skip_ws p2 = []
      · simp [hp3]
        exact htotnn
      · simp only [hp3, not_false_eq_true, if_true]
        have h := mat_vals_loop_spec ((skip_ws p2).length + 1) (skip_ws p2)
          true 0 (rows * cols) DC IC dataImg d
        have hmax : max (0 : Int) (rows * cols) = rows * cols :=
          max_eq_right htotnn
        refine ⟨h.1, ?_, ?_, h.2.2.2.1⟩
        · rw [hmax] at h
          exact h.2.1
        · rw [h.2.2.1]
          congr 1
          omega
    have heval2 : process_matrix_directive_at line DC dataImg IC d =
        (if ¬ r.1 = 0 then (r.1, r.2.2.1, r.2.2.2.1, r.2.2.2.2)
         else
           ((0 : Int),
             (mat_fill_zeros (rows * cols - r.2.1).toNat r.2.2.1 IC
               r.2.2.2.1).1,
             (mat_fill_zeros (rows * cols - r.2.1).toNat r.2.2.1 IC
               r.2.2.2.1).2,
             r.2.2.2.2)) := heval
    rw [heval2]
    constructor
    · refine ⟨fun heq => ?_, fun hg => absurd hg hguard⟩
      exfalso
      by_cases hrc : r.1 = 0
      · rw [if_neg (by simpa using hrc)] at heq
        have := congrArg Prod.fst heq
        simp at this
      · rw [if_pos (by simpa using hrc)] at heq
        have hd : r.2.2.2.2 = d.pushFuncs ECode.AS303 :=
          congrArg (fun t => t.2.2.2) heq
        have hf : r.2.2.2.2.funcs = d.funcs ++ [ECode.AS303] := by
          rw [hd]
          rfl
        rcases hspec.2.2.2 with hsame | ⟨c, hc, hcase⟩
        · rw [hsame] at hf
          have := congrArg List.length hf
          simp at this
        · rw [hcase] at hf
          exact hc (by simpa using hf)
    · intro hz
      by_cases hrc : r.1 = 0
      · rw [if_neg (by simpa using hrc)]
        refine ⟨hmul, ?_⟩
        simp only
        rw [(mat_fill_zeros_spec (rows * cols - r.2.1).toNat r.2.2.1 IC
          r.2.2.2.1).2, hspec.2.2.1]
        omega
      · rw [if_pos (by simpa using hrc)] at hz
        exact absurd hz hrc

/-- Witness for C10 on the line `.mat [2][2] 1,2`: the dimensions 2×2 pass
the overflow guard and the directive emits exactly 4 data words. -/
theorem mat_dimensions_capacity_witness :
    (process_matrix_directive_at
        ['.', 'm', 'a', 't', ' ', '[', '2', ']', '[', '2', ']', ' ',
          '1', ',', '2'] 100 [] 100 Diag.empty =
        (-1, 100, [], Diag.empty.pushFuncs ECode.AS303) ↔ (100 : Int) / 2 < 2) ∧
    ((process_matrix_directive_at
        ['.', 'm', 'a', 't', ' ', '[', '2', ']', '[', '2', ']', ' ',
          '1', ',', '2'] 100 [] 100 Diag.empty).1 = 0 →
      (2 : Int) * 2 ≤ 100 ∧
      ((process_matrix_directive_at
        ['.', 'm', 'a', 't', ' ', '[', '2', ']', '[', '2', ']', ' ',
          '1', ',', '2'] 100 [] 100 Diag.empty).2.2.1).length =
        ([] : List data_word).length + ((2 : Int) * 2).toNat) :=
  mat_dimensions_capacity
    ['.', 'm', 'a', 't', ' ', '[', '2', ']', '[', '2', ']', ' ',
      '1', ',', '2'] 100 100 [] Diag.empty
    ['.', 'm', 'a', 't', ' ', '[', '2', ']', '[', '2', ']', ' ',
      '1', ',', '2']
    ['[', '2', ']', ' ', '1', ',', '2'] [' ', '1', ',', '2'] 2 2
    (by decide) (by decide) (by decide)

/-! ### First-pass driver (`cleanup.c`) and output writers (`second_pass.c`) -/

/-- `OB_SUM_LIMIT` (`first_pass.h`): IC + DC must stay strictly below 255. -/
def OB_SUM_LIMIT : Int := 255

/-- `IC_INIT_VALUE` (`assembler.h`). -/
def IC_INIT_VALUE : Int := 100

/-- `OB_WORD_LIMIT` (`second_pass.h`). -/
def OB_WORD_LIMIT : Int := 255

/-- `OB_ADDR_WIDTH_DEFAULT` (`second_pass.h`). -/
def OB_ADDR_WIDTH_DEFAULT : Nat := 4

/-- `EXT_ENT_ADDR_WIDTH` (`second_pass.h`). -/
def EXT_ENT_ADDR_WIDTH : Nat := 4

/-- `match_instruction` (`cleanup.c`): case-insensitive mnemonic lookup. -/
def match_instruction (token : List Char) : CommandsTable :=
  if ieq token ['m', 'o', 'v'] then CommandsTable.MOV
  else if ieq token ['c', 'm', 'p'] then CommandsTable.CMP
  else if ieq token ['a', 'd', 'd'] then CommandsTable.ADD
  else if ieq token ['s', 'u', 'b'] then CommandsTable.SUB
  else if ieq token ['n', 'o', 't'] then CommandsTable.NOT
  else if ieq token ['c', 'l', 'r'] then CommandsTable.CLR
  else if ieq token ['l', 'e', 'a'] then CommandsTable.LEA
  else if ieq token ['i', 'n', 'c'] then CommandsTable.INC
  else if ieq token ['d', 'e', 'c'] then CommandsTable.DEC
  else if ieq token ['j', 'm', 'p'] then CommandsTable.JMP
  else if ieq token ['b', 'n', 'e'] then CommandsTable.BNE
  else if ieq token ['r', 'e', 'd'] then CommandsTable.RED
  else if ieq token ['p', 'r', 'n'] then CommandsTable.PRN
  else if ieq token ['j', 's', 'r'] then CommandsTable.JSR
  else if ieq token ['r', 't', 's'] then CommandsTable.RTS
  else if ieq token ['s', 't', 'o', 'p'] then CommandsTable.STOP
  else CommandsTable.UNDEFINED

/-- `match_directive` (`cleanup.c`): directive lookup, dot already removed. -/
def match_directive (token : List Char) : CommandsTable :=
  if ieq token ['d', 'a', 't', 'a'] then CommandsTable.DATA
  else if ieq token ['s', 't', 'r', 'i', 'n', 'g'] then CommandsTable.STRING
  else if ieq token ['m', 'a', 't'] then CommandsTable.MATRIX
  else if ieq token ['e', 'n', 't', 'r', 'y'] then CommandsTable.ENTRY
  else if ieq token ['e', 'x', 't', 'e', 'r', 'n'] then CommandsTable.EXTERN
  else CommandsTable.UNDEFINED

/-- `is_reserved_mnemonic` (`cleanup.c`). -/
def is_reserved_mnemonic (token : List Char) : Bool :=
  if token = [] then false
  else if ¬ match_instruction token = CommandsTable.UNDEFINED then true
  else if ¬ match_directive token = CommandsTable.UNDEFINED then true
  else is_register_name token

/-- `validate_label_name` (`cleanup.c`): empty or malformed names report
AS001, reserved mnemonics AS015, register names AS016, all into the
`cleanup.c` unit; returns 1 only when every check passes. -/
def validate_label_name (label_name : List Char) (d : Diag) : Bool × Diag :=
  if label_name = [] then (false, d.pushCleanup ECode.AS001)
  else if ¬ is_alpha_num_label label_name then
    (false, d.pushCleanup ECode.AS001)
  else if is_reserved_mnemonic label_name then
    (false, d.pushCleanup ECode.AS015)
  else if is_register_name label_name then
    (false, d.pushCleanup ECode.AS016)
  else (true, d)

/-- `is_label_definition` (`cleanup.c`): scan the first token up to
whitespace, `;` or `:`; only a token terminated by `:` is a label candidate.
Over-long candidates report AS001 and leave `label_out` unset; otherwise the
extracted name is returned together with the verdict of
`validate_label_name`. -/
def is_label_definition (line_start : List Char) (d : Diag) :
    Option (List Char) × Bool × Diag :=
  let p := line_start.dropWhile c_isspace
  let lab := p.takeWhile (fun c => ¬ c_isspace c ∧ ¬ c = ';' ∧ ¬ c = ':')
  match p.drop lab.length with
  | ':' :: _ =>
    if 31 < lab.length then (none, false, d.pushCleanup ECode.AS001)
    else
      let v := validate_label_name lab d
      (some lab, v.1, v.2)
  | _ => (none, false, d)

/-- `get_command_type` (`cleanup.c`): extract the first token (lower-cased,
at most 31 characters, stopped by whitespace, `,`, `[` or `;`), try the
instruction table on it and the directive table on its dot-stripped form;
an empty token reports AS002 and an unrecognized one AS004. -/
def get_command_type (line : List Char) (d : Diag) : CommandsTable × Diag :=
  match line.dropWhile c_isspace with
  | [] => (CommandsTable.UNDEFINED, d)
  | c :: rest =>
    if c = ';' then (CommandsTable.UNDEFINED, d)
    else
      let token := (((c :: rest).takeWhile (fun x =>
          ¬ c_isspace x ∧ ¬ x = ',' ∧ ¬ x = '[' ∧ ¬ x = ';')).take 31).map
        c_tolower
      if token = [] then (CommandsTable.UNDEFINED, d.pushCleanup ECode.AS002)
      else
        let command_token := if token.head? = some '.' then token.tail
          else token
        if ¬ match_instruction token = CommandsTable.UNDEFINED then
          (match_instruction token, d)
        else if ¬ match_directive command_token = CommandsTable.UNDEFINED then
          (match_directive command_token, d)
        else (CommandsTable.UNDEFINED, d.pushCleanup ECode.AS004)

/-- `determine_symbol_type` (`cleanup.c`). -/
def determine_symbol_type : CommandsTable → symbol_type
  | CommandsTable.DATA => symbol_type.DATA_SYMBOL
  | CommandsTable.STRING => symbol_type.DATA_SYMBOL
  | CommandsTable.MATRIX => symbol_type.DATA_SYMBOL
  | CommandsTable.ENTRY => symbol_type.ENTRY_SYMBOL
  | CommandsTable.EXTERN => symbol_type.EXTERNAL_SYMBOL
  | _ => symbol_type.CODE_SYMBOL

/-- `process_valid_label` (`cleanup.c`): code labels record the current IC,
data labels record `IC + DC`; other kinds are not registered. -/
def process_valid_label (tab : List symbol_entry) (label_name : List Char)
    (st : symbol_type) (IC DC : Int) : List symbol_entry :=
  if st = symbol_type.CODE_SYMBOL then
    add_table_item tab label_name IC symbol_type.CODE_SYMBOL
  else if st = symbol_type.DATA_SYMBOL then
    add_table_item tab label_name (IC + DC) symbol_type.DATA_SYMBOL
  else tab

/-- `check_sum_limit` (`cleanup.c`): `IC + DC` must stay strictly below
`OB_SUM_LIMIT`; a violation reports AS_SUM_GE_LIMIT into the `cleanup.c`
unit and returns 0. -/
def check_sum_limit (IC DC : Int) (d : Diag) : Bool × Diag :=
  if IC + DC < OB_SUM_LIMIT then (true, d)
  else (false, d.pushCleanup ECode.AS_SUM_GE_LIMIT)

/-- `handle_directive_argument` (`cleanup.c`): extract and validate the
label after `.entry`/`.extern`; a missing label reports AS011/AS012, an
over-long one AS013, an invalid name AS014, trailing junk AS015 (all into
the `cleanup.c` unit, the `dctx` the caller passes); on success the label
joins the entry or extern list. -/
def handle_directive_argument (is_entry : Bool) (arg : List Char)
    (ents : List entry_node) (exts : List extern_node) (d : Diag) :
    List entry_node × List extern_node × Diag :=
  let missing : ECode := if is_entry then ECode.AS011 else ECode.AS012
  match arg.dropWhile c_isspace with
  | [] => (ents, exts, d.pushCleanup missing)
  | c :: rest =>
    if c = ';' then (ents, exts, d.pushCleanup missing)
    else
      let p := c :: rest
      let tok := p.takeWhile (fun x => ¬ c_isspace x ∧ ¬ x = ';' ∧ ¬ x = ',')
      if tok = [] then (ents, exts, d.pushCleanup missing)
      else if 31 < tok.length then (ents, exts, d.pushCleanup ECode.AS013)
      else if ¬ is_alpha_num_label tok ∨ is_reserved_mnemonic tok ∨
          is_register_name tok then
        (ents, exts, d.pushCleanup ECode.AS014)
      else
        match (p.drop tok.length).dropWhile c_isspace with
        | [] =>
          if is_entry then (add_entry ents tok 0, exts, d)
          else (ents, add_extern exts tok, d)
        | r :: _ =>
          if r = ';' then
            if is_entry then (add_entry ents tok 0, exts, d)
            else (ents, add_extern exts tok, d)
          else (ents, exts, d.pushCleanup ECode.AS015)

/-- `relocate_data` (`cleanup.c`): shift every data symbol and every data
word address by the final IC.  The source defines it but never runs it: the
only call site, `main.c` line 67, is commented out. -/
def relocate_data (symtab : List symbol_entry) (data_img : List data_word)
    (finalIC : Int) : List symbol_entry × List data_word :=
  (symtab.map (fun s =>
    if s.type = symbol_type.DATA_SYMBOL then { s with value := s.value + finalIC }
    else s),
   data_img.map (fun w => { w with address := w.address + finalIC }))

/-- Code-section lines of `write_ob_base4_only`: width-4 address, space,
5-letter word `payload<<2 | ARE`, newline. -/
def ob_code_lines (addr_width : Nat) : List machine_word → List Char
  | [] => []
  | mw :: rest =>
    to_base4_letters (uCast mw.address) addr_width ++
      ' ' :: word10_to_letters_code mw.value mw.are ++
      '\n' :: ob_code_lines addr_width rest

/-- Data-section lines of `write_ob_base4_only`: width-4 address, space,
5-letter word from the 10-bit payload (no ARE injected), newline. -/
def ob_data_lines (addr_width : Nat) : List data_word → List Char
  | [] => []
  | dw :: rest =>
    to_base4_letters (uCast dw.address) addr_width ++
      ' ' :: word10_to_letters_data dw.value ++
      '\n' :: ob_data_lines addr_width rest

/-- `write_ob_base4_only` (`second_pass.c`): compare the word count against
`min (4^addr_width - 1) OB_WORD_LIMIT` (too long reports AS_OB_TOO_LONG
into the `second_pass.c` unit and writes nothing), then emit the header line
`"\t%s\t%s\n"` holding `IC_final` and `DC_final` in minimum-width base-4,
the code lines and the data lines.  The `code_words` estimate re-subtracts
`IC_INIT_VALUE` from the `IC_final` parameter it receives; `ob_too_long` is
that word-count comparison. -/
def ob_too_long (IC_final DC_final : Int) (addr_width : Nat) : Bool :=
  let code_words : Int :=
    if IC_final > IC_INIT_VALUE then IC_final - IC_INIT_VALUE else 0
  let data_words : Int := if DC_final > 0 then DC_final else 0
  let total_words := code_words + data_words
  let width_capacity : Int := 2 ^ (2 * addr_width)
  let max_allowed := min (width_capacity - 1) OB_WORD_LIMIT
  total_words > max_allowed

def write_ob_base4_only (code : List machine_word) (data : List data_word)
    (IC_final : Int) (addr_width : Nat) (DC_final : Int) (spd : List ECode) :
    Option (List Char) × List ECode :=
  if ob_too_long IC_final DC_final addr_width then
    (none, spd ++ [ECode.AS_OB_TOO_LONG])
  else
    (some ('\t' :: to_base4_letters_header (uCast IC_final) ++
      '\t' :: to_base4_letters_header (uCast DC_final) ++
      '\n' :: (ob_code_lines addr_width code ++ ob_data_lines addr_width data)),
     spd)

/-- Lines of `write_ent_base4_only`: label, space, width-4 address. -/
def ent_lines : List entry_node → List Char
  | [] => []
  | e :: rest =>
    e.labels ++ ' ' :: to_base4_letters (uCast e.addr) EXT_ENT_ADDR_WIDTH ++
      '\n' :: ent_lines rest

/-- `write_ent_base4_only` (`second_pass.c`): nothing is written for an
empty entry list. -/
def write_ent_base4_only (ents : List entry_node) : Option (List Char) :=
  match ents with
  | [] => none
  | _ => some (ent_lines ents)

/-- Per-extern usage lines of `write_ext_base4_only`. -/
def ext_usage_lines (label : List Char) : List Int → List Char
  | [] => []
  | a :: rest =>
    label ++ ' ' :: to_base4_letters (uCast a) EXT_ENT_ADDR_WIDTH ++
      '\n' :: ext_usage_lines label rest

/-- All lines of `write_ext_base4_only`. -/
def ext_lines : List extern_node → List Char
  | [] => []
  | e :: rest => ext_usage_lines e.labels e.addr_head ++ ext_lines rest

/-- `write_ext_base4_only` (`second_pass.c`): written only when some extern
has at least one recorded usage. -/
def write_ext_base4_only (exts : List extern_node) : Option (List Char) :=
  if exts = [] ∨ ¬ has_any_extern_usage exts then none
  else some (ext_lines exts)

/-- Result of the `second_pass` driver: return code, the resolved code image
and extern/entry lists, the produced `.ob`/`.ent`/`.ext` contents (none when
not written), and the `second_pass.c` unit's own error-code list. -/
structure sp_result where
  rc : Int
  code : List machine_word
  exts : List extern_node
  ents : List entry_node
  ob : Option (List Char)
  ent : Option (List Char)
  ext : Option (List Char)
  spd : List ECode
  deriving DecidableEq

/-- `second_pass` (`second_pass.c`): bail out (AS050) if the unit's own
error counter is already non-zero; otherwise resolve labels, complete the
entry addresses and write the three output files. -/
def second_pass (symtab : List symbol_entry) (code : List machine_word)
    (data : List data_word) (IC_final DC_final : Int)
    (exts : List extern_node) (ents : List entry_node) (spd : List ECode) :
    sp_result :=
  if ¬ spd = [] then
    ⟨-1, code, exts, ents, none, none, none, spd ++ [ECode.AS050]⟩
  else
    let r := resolve_labels_in_place code symtab exts
    let ents2 := complete_entry_labels symtab ents
    let ob := write_ob_base4_only r.1 data IC_final OB_ADDR_WIDTH_DEFAULT
      DC_final spd
    ⟨0, r.1, r.2, ents2, ob.1, write_ent_base4_only ents2,
     write_ext_base4_only r.2, ob.2⟩

/-- Mutable state of the `first_pass` read loop (`cleanup.c`): counters,
symbol table, both images, entry/extern lists, the sticky `had_error` flag
and the per-unit diagnostics. -/
structure fp_state where
  IC : Int
  DC : Int
  symtab : List symbol_entry
  image : List machine_word
  dataImg : List data_word
  ents : List entry_node
  exts : List extern_node
  hadError : Bool
  d : Diag
  deriving DecidableEq

/-- One iteration of the `first_pass` read loop (`cleanup.c`): skip blank and
comment lines; detect and validate a label (with the colon-before-space
re-diagnosis when detection fails); advance past the label, reject
duplicates (AS020); extract the first token and classify it (an UNDEFINED
verdict adds AS002, sets `had_error` and moves to the next line); register
the label (except for `.entry`/`.extern`); then dispatch — instructions run
`process_commands_words` with its return code dropped, directives run
`process_data_string_mat` feeding `had_error`, both followed by
`check_sum_limit`, and `.entry`/`.extern` run `handle_directive_argument`
with its return code dropped.  `pl_dispatch` is the PHASE 5 `switch`, `pl_classified` PHASE 3's
UNDEFINED bail-out plus PHASE 4's label registration, and `processLine` the
rest of the loop body. -/
def pl_dispatch (cmd : CommandsTable) (cp token_end : List Char)
    (symtab2 : List symbol_entry) (he3 : Bool) (d4 : Diag) (s : fp_state) :
    fp_state :=
  match cmd with
  | CommandsTable.DATA | CommandsTable.STRING | CommandsTable.MATRIX =>
    let r := process_data_string_mat cmd cp s.DC s.dataImg s.IC d4
    let he4 := if ¬ r.1 = 0 then true else he3
    let chk := check_sum_limit s.IC r.2.1 r.2.2.2
    { s with
      DC := r.2.1, dataImg := r.2.2.1, symtab := symtab2,
      d := chk.2, hadError := if chk.1 then he4 else true }
  | CommandsTable.ENTRY =>
    let arg := token_end.dropWhile c_isspace
    let r := handle_directive_argument true arg s.ents s.exts d4
    { s with
      symtab := symtab2, ents := r.1, exts := r.2.1, d := r.2.2,
      hadError := he3 }
  | CommandsTable.EXTERN =>
    let arg := token_end.dropWhile c_isspace
    let r := handle_directive_argument false arg s.ents s.exts d4
    { s with
      symtab := symtab2, ents := r.1, exts := r.2.1, d := r.2.2,
      hadError := he3 }
  | CommandsTable.UNDEFINED =>
    { s with symtab := symtab2, d := d4, hadError := he3 }
  | _ =>
    let r := process_commands_words cmd cp s.IC s.image symtab2 d4
    let chk := check_sum_limit r.IC s.DC r.d
    { s with
      IC := r.IC, image := r.image, symtab := symtab2,
      d := chk.2, hadError := if chk.1 then he3 else true }

def pl_classified (cmd : CommandsTable) (cp token_end : List Char)
    (has_label : Bool) (label1 : Option (List Char)) (he3 : Bool) (d4 : Diag)
    (s : fp_state) : fp_state :=
  if cmd = CommandsTable.UNDEFINED then
    { s with d := d4.pushCleanup ECode.AS002, hadError := true }
  else
    let sym_type := determine_symbol_type cmd
    let symtab2 := if has_label ∧ ¬ cmd = CommandsTable.ENTRY ∧
        ¬ cmd = CommandsTable.EXTERN then
      match label1 with
      | some lab => process_valid_label s.symtab lab sym_type s.IC s.DC
      | none => s.symtab
    else s.symtab
    pl_dispatch cmd cp token_end symtab2 he3 d4 s

def processLine (line : List Char) (s : fp_state) : fp_state :=
  let p0 := line.dropWhile c_isspace
  if p0 = [] ∨ p0.head? = some ';' then s
  else
    let ld := is_label_definition p0 s.d
    let label0 := ld.1
    let has_label := ld.2.1
    let d1 := ld.2.2
    let colonBad : Bool := ¬ has_label ∧
      p0.findIdx (fun ch => ch = ':') <
        p0.findIdx (fun ch => ch = ' ' ∨ ch = '\t' ∨ ch = ';')
    let d2 := if colonBad then d1.pushCleanup ECode.AS001 else d1
    let after_colon := match p0.dropWhile (fun c => ¬ c = ':') with
      | ':' :: t => t
      | other => other
    let cp := if has_label then after_colon.dropWhile c_isspace else p0
    let lab_dup : Bool := has_label && (match label0 with
      | some lab => (find_symbol s.symtab lab).isSome
      | none => false)
    let d3 := if lab_dup then d2.pushCleanup ECode.AS020 else d2
    let he3 : Bool := if lab_dup then true
      else if colonBad then true else s.hadError
    let label1 : Option (List Char) := if lab_dup then none else label0
    let tokFull := cp.takeWhile (fun x =>
      ¬ c_isspace x ∧ ¬ x = ',' ∧ ¬ x = '[' ∧ ¬ x = ';')
    let token_end := cp.drop (min tokFull.length 31)
    let gc := get_command_type cp d3
    pl_classified gc.1 cp token_end has_label label1 he3 gc.2 s

/-- Result of `first_pass`: the final loop state, the `second_pass` outcome
when the clean-run gate passed (none otherwise), and the return code. -/
structure fp_result where
  st : fp_state
  sp : Option sp_result
  rc : Int
  deriving DecidableEq

/-- `first_pass` (`cleanup.c`): reset IC to `IC_INIT_VALUE` and DC to 0,
fold the read loop over the source lines, and — only when the `cleanup.c`
unit recorded no error and `had_error` stayed clear — run `second_pass`
with `IC - IC_INIT_VALUE` as its `IC_final` argument; the same gate decides
the 0/1 return code.  File I/O is abstracted: the input is the line list
the `fgets` loop would deliver. -/
def first_pass (lines : List (List Char)) : fp_result :=
  let s := lines.foldl (fun st l => processLine l st)
    ⟨IC_INIT_VALUE, 0, [], [], [], [], [], false, Diag.empty⟩
  if s.d.cleanup = [] ∧ s.hadError = false then
    ⟨s, some (second_pass s.symtab s.image s.dataImg (s.IC - IC_INIT_VALUE)
      s.DC s.exts s.ents []), 0⟩
  else ⟨s, none, 1⟩

/-- The `.ob` contents a run produces, if any. -/
def fp_ob (r : fp_result) : Option (List Char) :=
  match r.sp with
  | none => none
  | some spr => spr.ob

/-! ### Claim C3: data relocation -/

/-- Claim C3 is refuted by the code: `relocate_data` is never invoked (its
only call, `main.c` line 67, is commented out), so data words keep the
`DC + IC` addresses given at creation time.  For the program
`.data 1` / `stop` the single data word sits at address 100 while the final
IC is 101: the data word lies below IC_final and collides with the code
word emitted at address 100, and the produced `.ob` even prints both words
at the same base-4 address `bcba`. -/
theorem data_words_not_relocated :
    (first_pass [['.', 'd', 'a', 't', 'a', ' ', '1'],
        ['s', 't', 'o', 'p']]).st.dataImg.map data_word.address = [100] ∧
    (first_pass [['.', 'd', 'a', 't', 'a', ' ', '1'],
        ['s', 't', 'o', 'p']]).st.image.map machine_word.address = [100] ∧
    (first_pass [['.', 'd', 'a', 't', 'a', ' ', '1'],
        ['s', 't', 'o', 'p']]).st.IC = 101 ∧
    fp_ob (first_pass [['.', 'd', 'a', 't', 'a', ' ', '1'],
        ['s', 't', 'o', 'p']]) = some
      ['\t', 'b', '\t', 'b', '\n',
       'b', 'c', 'b', 'a', ' ', 'd', 'd', 'a', 'a', 'a', '\n',
       'b', 'c', 'b', 'a', ' ', 'a', 'a', 'a', 'a', 'b', '\n'] := by
  decide

/-! ### Claim C5: error gating before the second pass -/

/-- Claim C5 is refuted by the code: for the single line `mov r1` the
operand-count error AS003 is recorded — but into `opmodes.c`'s own
translation-unit counter, while `first_pass` discards the return code of
`process_commands_words` and gates the second pass only on `cleanup.c`'s
counter and its local `had_error` flag.  The run therefore ends with the
error recorded, yet the gate sees a clean state, `first_pass` returns 0 and
the second pass still writes the `.ob` file. -/
theorem encoder_errors_bypass_gate :
    (first_pass [['m', 'o', 'v', ' ', 'r', '1']]).st.d.opmodes =
      [ECode.AS003] ∧
    (first_pass [['m', 'o', 'v', ' ', 'r', '1']]).st.d.cleanup = [] ∧
    (first_pass [['m', 'o', 'v', ' ', 'r', '1']]).st.hadError = false ∧
    (first_pass [['m', 'o', 'v', ' ', 'r', '1']]).rc = 0 ∧
    fp_ob (first_pass [['m', 'o', 'v', ' ', 'r', '1']]) = some
      ['\t', 'a', '\t', 'a', '\n'] := by
  decide

/-! ### Claim C4: object-file header -/

/-- Counterexample to claim C4: for the program `stop` (final IC 101, DC 0)
the `.ob` contents start with a tab character, and the header line prints
`IC - 100` (here 1, letter `b`), so the file does not begin with
`<IC_final in base-4>\t<DC in base-4>\n` — neither with IC_final read as
101 (`bcbb`) nor as the code-word count 1 (`b`, still preceded by the
tab). -/
theorem ob_header_counterexample :
    (first_pass [['s', 't', 'o', 'p']]).st.IC = 101 ∧
    (first_pass [['s', 't', 'o', 'p']]).st.DC = 0 ∧
    fp_ob (first_pass [['s', 't', 'o', 'p']]) = some
      ['\t', 'b', '\t', 'a', '\n',
       'b', 'c', 'b', 'a', ' ', 'd', 'd', 'a', 'a', 'a', '\n'] ∧
    ¬ (to_base4_letters_header 101 ++ '\t' ::
        to_base4_letters_header 0 ++ ['\n']).isPrefixOf
      ['\t', 'b', '\t', 'a', '\n',
       'b', 'c', 'b', 'a', ' ', 'd', 'd', 'a', 'a', 'a', '\n'] = true ∧
    ¬ (to_base4_letters_header 1 ++ '\t' ::
        to_base4_letters_header 0 ++ ['\n']).isPrefixOf
      ['\t', 'b', '\t', 'a', '\n',
       'b', 'c', 'b', 'a', ' ', 'd', 'd', 'a', 'a', 'a', '\n'] = true := by
  decide

/-- Claim C4, amended: whenever a run produces a `.ob` file, its contents
begin with the header line `'\t'`, then `IC_final - 100` in minimum-width
base-4 letters, a tab, `DC_final` in minimum-width base-4 letters and a
newline — `write_ob_base4_only` prints `"\t%s\t%s\n"` and `first_pass`
hands it `IC - IC_INIT_VALUE`, not the final IC. -/
theorem ob_header_shape (lines : List (List Char)) (s : List Char)
    (h : fp_ob (first_pass lines) = some s) :
    ∃ rest,
      s = '\t' :: to_base4_letters_header
          (uCast ((first_pass lines).st.IC - IC_INIT_VALUE)) ++
        '\t' :: to_base4_letters_header
          (uCast (first_pass lines).st.DC) ++ '\n' :: rest := by
  unfold fp_ob at h
  unfold first_pass at h ⊢
  set S := lines.foldl (fun st l => processLine l st)
    ⟨IC_INIT_VALUE, 0, [], [], [], [], [], false, Diag.empty⟩ with hS
  by_cases hg : S.d.cleanup = [] ∧ S.hadError = false
  · rw [if_pos hg] at h ⊢
    simp only [second_pass, not_true_eq_false, if_false] at h
    unfold write_ob_base4_only at h
    cases hob : ob_too_long (S.IC - IC_INIT_VALUE) S.DC OB_ADDR_WIDTH_DEFAULT
    · simp only [hob, Bool.false_eq_true, if_false, Option.some.injEq] at h
      dsimp only
      exact ⟨_, h.symm⟩
    · simp only [hob, if_true] at h
      cases h
  · rw [if_neg hg] at h
    cases h

/-- Witness for the amended C4 on the program `stop`. -/
theorem ob_header_shape_witness :
    ∃ rest,
      (['\t', 'b', '\t', 'a', '\n', 'b', 'c', 'b', 'a', ' ',
        'd', 'd', 'a', 'a', 'a', '\n'] : List Char) =
      '\t' :: to_base4_letters_header
          (uCast ((first_pass [['s', 't', 'o', 'p']]).st.IC -
            IC_INIT_VALUE)) ++
        '\t' :: to_base4_letters_header
          (uCast (first_pass [['s', 't', 'o', 'p']]).st.DC) ++ '\n' :: rest :=
  ob_header_shape [['s', 't', 'o', 'p']]
    ['\t', 'b', '\t', 'a', '\n', 'b', 'c', 'b', 'a', ' ',
     'd', 'd', 'a', 'a', 'a', '\n'] (by decide)

/-! ### Claim C2: size bound -/

lemma cleanup_ext_trans {d1 d2 d3 : Diag}
    (h1 : ∃ t, d2.cleanup = d1.cleanup ++ t)
    (h2 : ∃ t, d3.cleanup = d2.cleanup ++ t) :
    ∃ t, d3.cleanup = d1.cleanup ++ t := by
  obtain ⟨a, ha⟩ := h1
  obtain ⟨b, hb⟩ := h2
  exact ⟨a ++ b, by rw [hb, ha, List.append_assoc]⟩

lemma mem_of_cleanup_ext {d1 d2 : Diag} {c : ECode}
    (h : ∃ t, d2.cleanup = d1.cleanup ++ t) (hc : c ∈ d1.cleanup) :
    c ∈ d2.cleanup := by
  obtain ⟨t, ht⟩ := h
  rw [ht]
  exact List.mem_append_left _ hc

lemma report_matrix_error_cleanup (e : matrix_error) (d : Diag) :
    (report_matrix_error e d).cleanup = d.cleanup := by
  cases e <;> rfl

lemma split_matrix_ex_cleanup (tok : List Char) (d : Diag) :
    (split_matrix_ex tok d).2.cleanup = d.cleanup := by
  unfold split_matrix_ex
  cases parse_matrix_operand tok with
  | ok a b c => rfl
  | err e => exact report_matrix_error_cleanup e d

lemma validate_operand_cleanup (rule : opcode_mode) (m : addr_mode)
    (b : Bool) (d : Diag) :
    (validate_operand rule m b d).2.cleanup = d.cleanup := by
  unfold validate_operand
  by_cases h1 : m = addr_mode.NONE
  · simp [h1, Diag.pushOpmodes]
  · simp only [h1, if_false]
    split <;> split <;> rfl

lemma validate_modes_cleanup (cmd : CommandsTable) (n : Nat)
    (sm dm : addr_mode) (d : Diag) :
    (validate_modes_for_opcode cmd n sm dm d).2.cleanup = d.cleanup := by
  unfold validate_modes_for_opcode
  cases opcode_rule cmd with
  | none => rfl
  | some rule =>
    simp only
    split
    · rfl
    · match n with
      | 0 => rfl
      | 1 =>
        simp only
        rw [validate_operand_cleanup]
        split <;> rfl
      | 2 =>
        simp only
        rw [validate_operand_cleanup, validate_operand_cleanup]
      | n + 3 => rfl

lemma emit_symbol_addr_fst (name : List Char) (symtab : List symbol_entry)
    (IC : Int) (img : List machine_word) :
    (emit_symbol_addr name symtab IC img).1 = IC + 1 := by
  unfold emit_symbol_addr
  cases find_symbol symtab name <;> rfl

lemma encode_src_operand_IC (m : addr_mode) (tok : List Char)
    (symtab : List symbol_entry) (IC : Int) (img : List machine_word)
    (d : Diag) : IC ≤ (encode_src_operand m tok symtab IC img d).IC := by
  cases m
  · cases hp : parse_imm8 tok
    · simp [encode_src_operand, hp]
    · simp only [encode_src_operand, hp, emit_imm_word]
      omega
  · simp only [encode_src_operand, emit_symbol_addr_fst]
    omega
  · rcases hsm : split_matrix_ex tok d with ⟨o, d1⟩
    simp only [encode_src_operand, hsm]
    rcases o with _ | ⟨base, ra, rb⟩
    · simp
    · simp only
      by_cases hr : reg_id ra < 0 ∨ reg_id rb < 0
      · rw [if_pos hr]
      · rw [if_neg hr]
        simp only [emit_regcode_pair, emit_symbol_addr_fst]
        omega
  · by_cases hr : reg_id tok < 0
    · simp [encode_src_operand, hr]
    · simp only [encode_src_operand, emit_regcode_single_src]
      rw [if_neg hr]
      dsimp only
      omega
  · simp [encode_src_operand]

lemma encode_src_operand_cleanup (m : addr_mode) (tok : List Char)
    (symtab : List symbol_entry) (IC : Int) (img : List machine_word)
    (d : Diag) :
    (encode_src_operand m tok symtab IC img d).d.cleanup = d.cleanup := by
  cases m
  · cases hp : parse_imm8 tok
    · simp [encode_src_operand, hp, Diag.pushWords]
    · simp [encode_src_operand, hp]
  · simp [encode_src_operand]
  · rcases hsm : split_matrix_ex tok d with ⟨o, d1⟩
    have hd1 : d1.cleanup = d.cleanup := by
      have := split_matrix_ex_cleanup tok d
      rw [hsm] at this
      exact this
    simp only [encode_src_operand, hsm]
    rcases o with _ | ⟨base, ra, rb⟩
    · simpa using hd1
    · simp only
      by_cases hr : reg_id ra < 0 ∨ reg_id rb < 0
      · rw [if_pos hr]
        simpa [Diag.pushWords] using hd1
      · rw [if_neg hr]
        simpa using hd1
  · by_cases hr : reg_id tok < 0
    · simp [encode_src_operand, hr, Diag.pushWords]
    · simp only [encode_src_operand]
      rw [if_neg hr]
  · simp [encode_src_operand]

lemma encode_dst_operand_IC (m : addr_mode) (tok : List Char)
    (symtab : List symbol_entry) (IC : Int) (img : List machine_word)
    (d : Diag) : IC ≤ (encode_dst_operand m tok symtab IC img d).IC := by
  cases m
  · cases hp : parse_imm8 tok
    · simp [encode_dst_operand, hp]
    · simp only [encode_dst_operand, hp, emit_imm_word]
      omega
  · simp only [encode_dst_operand, emit_symbol_addr_fst]
    omega
  · rcases hsm : split_matrix_ex tok d with ⟨o, d1⟩
    simp only [encode_dst_operand, hsm]
    rcases o with _ | ⟨base, ra, rb⟩
    · simp
    · simp only
      by_cases hr : reg_id ra < 0 ∨ reg_id rb < 0
      · rw [if_pos hr]
      · rw [if_neg hr]
        simp only [emit_regcode_pair, emit_symbol_addr_fst]
        omega
  · by_cases hr : reg_id tok < 0
    · simp [encode_dst_operand, hr]
    · simp only [encode_dst_operand, emit_regcode_single_dest]
      rw [if_neg hr]
      dsimp only
      omega
  · simp [encode_dst_operand]

lemma encode_dst_operand_cleanup (m : addr_mode) (tok : List Char)
    (symtab : List symbol_entry) (IC : Int) (img : List machine_word)
    (d : Diag) :
    (encode_dst_operand m tok symtab IC img d).d.cleanup = d.cleanup := by
  cases m
  · cases hp : parse_imm8 tok
    · simp [encode_dst_operand, hp, Diag.pushWords]
    · simp [encode_dst_operand, hp]
  · simp [encode_dst_operand]
  · rcases hsm : split_matrix_ex tok d with ⟨o, d1⟩
    have hd1 : d1.cleanup = d.cleanup := by
      have := split_matrix_ex_cleanup tok d
      rw [hsm] at this
      exact this
    simp only [encode_dst_operand, hsm]
    rcases o with _ | ⟨base, ra, rb⟩
    · simpa using hd1
    · simp only
      by_cases hr : reg_id ra < 0 ∨ reg_id rb < 0
      · rw [if_pos hr]
        simpa [Diag.pushWords] using hd1
      · rw [if_neg hr]
        simpa using hd1
  · by_cases hr : reg_id tok < 0
    · simp [encode_dst_operand, hr, Diag.pushWords]
    · simp only [encode_dst_operand]
      rw [if_neg hr]
  · simp [encode_dst_operand]

lemma toBinaryFirstWord_fst (op : CommandsTable) (sm dm : addr_mode)
    (IC : Int) (image : List machine_word) :
    (toBinaryFirstWord op sm dm IC image).1 = IC + 1 := rfl

lemma enc_src_step_IC (c : Prop) [Decidable c] (sm : addr_mode)
    (tk : List Char) (symtab : List symbol_entry) (I : Int)
    (im : List machine_word) (dd : Diag) :
    I ≤ ((if c then encode_src_operand sm tk symtab I im dd
      else ⟨false, I, im, dd⟩) : enc_step).IC := by
  split
  · exact encode_src_operand_IC sm tk symtab I im dd
  · exact le_refl I

lemma enc_dst_step_IC (c : Prop) [Decidable c] (dm : addr_mode)
    (tk : List Char) (symtab : List symbol_entry) (I : Int)
    (im : List machine_word) (dd : Diag) :
    I ≤ ((if c then encode_dst_operand dm tk symtab I im dd
      else ⟨false, I, im, dd⟩) : enc_step).IC := by
  split
  · exact encode_dst_operand_IC dm tk symtab I im dd
  · exact le_refl I

lemma enc_src_step_cleanup (c : Prop) [Decidable c] (sm : addr_mode)
    (tk : List Char) (symtab : List symbol_entry) (I : Int)
    (im : List machine_word) (dd : Diag) :
    ((if c then encode_src_operand sm tk symtab I im dd
      else ⟨false, I, im, dd⟩) : enc_step).d.cleanup = dd.cleanup := by
  split
  · exact encode_src_operand_cleanup sm tk symtab I im dd
  · rfl

lemma enc_dst_step_cleanup (c : Prop) [Decidable c] (dm : addr_mode)
    (tk : List Char) (symtab : List symbol_entry) (I : Int)
    (im : List machine_word) (dd : Diag) :
    ((if c then encode_dst_operand dm tk symtab I im dd
      else ⟨false, I, im, dd⟩) : enc_step).d.cleanup = dd.cleanup := by
  split
  · exact encode_dst_operand_cleanup dm tk symtab I im dd
  · rfl

lemma process_commands_words_IC (cmd : CommandsTable) (line : List Char)
    (IC : Int) (image : List machine_word) (symtab : List symbol_entry)
    (d : Diag) :
    IC ≤ (process_commands_words cmd line IC image symtab d).IC := by
  simp only [process_commands_words]
  set sp := split_operands line with hsp
  set sm := (if sp.1 = 2 then get_addr_method sp.2.1 else addr_mode.NONE)
    with hsm
  set dm := (if sp.1 = 2 then get_addr_method sp.2.2
    else if sp.1 = 1 then get_addr_method sp.2.1 else addr_mode.NONE) with hdm
  set v := validate_modes_for_opcode cmd sp.1 sm dm d with hv
  by_cases h1 : v.1 = true
  · rw [if_pos h1]
  · rw [if_neg h1]
    set f := toBinaryFirstWord cmd sm dm IC image with hf
    have hf1 : f.1 = IC + 1 := by rw [hf]; rfl
    by_cases h2 : sp.1 = 2 ∧ sm = addr_mode.REGISTER ∧
        dm = addr_mode.REGISTER
    · rw [if_pos h2]
      by_cases h3 : reg_id sp.2.1 < 0 ∨ reg_id sp.2.2 < 0
      · rw [if_pos h3]
        dsimp only
        omega
      · rw [if_neg h3]
        dsimp only
        omega
    · rw [if_neg h2]
      set se := ((if sp.1 = 2 then
          encode_src_operand sm sp.2.1 symtab f.1 f.2 v.2
        else ⟨false, f.1, f.2, v.2⟩) : enc_step) with hse
      have hseIC : f.1 ≤ se.IC := by
        rw [hse]
        exact enc_src_step_IC _ _ _ _ _ _ _
      by_cases h4 : se.flag = true
      · rw [if_pos h4]
        dsimp only
        omega
      · rw [if_neg h4]
        set de := ((if 1 ≤ sp.1 then
            encode_dst_operand dm (if sp.1 = 2 then sp.2.2 else sp.2.1)
              symtab se.IC se.image se.d
          else ⟨false, se.IC, se.image, se.d⟩) : enc_step) with hde
        have hdeIC : se.IC ≤ de.IC := by
          rw [hde]
          exact enc_dst_step_IC _ _ _ _ _ _ _
        by_cases h5 : de.flag = true
        · rw [if_pos h5]
          dsimp only
          omega
        · rw [if_neg h5]
          dsimp only
          omega

lemma process_commands_words_cleanup (cmd : CommandsTable) (line : List Char)
    (IC : Int) (image : List machine_word) (symtab : List symbol_entry)
    (d : Diag) :
    (process_commands_words cmd line IC image symtab d).d.cleanup =
      d.cleanup := by
  simp only [process_commands_words]
  set sp := split_operands line with hsp
  set sm := (if sp.1 = 2 then get_addr_method sp.2.1 else addr_mode.NONE)
    with hsm
  set dm := (if sp.1 = 2 then get_addr_method sp.2.2
    else if sp.1 = 1 then get_addr_method sp.2.1 else addr_mode.NONE) with hdm
  set v := validate_modes_for_opcode cmd sp.1 sm dm d with hv
  have hvc : v.2.cleanup = d.cleanup := by
    rw [hv]
    exact validate_modes_cleanup _ _ _ _ _
  by_cases h1 : v.1 = true
  · rw [if_pos h1]
    exact hvc
  · rw [if_neg h1]
    set f := toBinaryFirstWord cmd sm dm IC image with hf
    by_cases h2 : sp.1 = 2 ∧ sm = addr_mode.REGISTER ∧
        dm = addr_mode.REGISTER
    · rw [if_pos h2]
      by_cases h3 : reg_id sp.2.1 < 0 ∨ reg_id sp.2.2 < 0
      · rw [if_pos h3]
        dsimp only
        rw [Diag.pushWords]
        exact hvc
      · rw [if_neg h3]
        exact hvc
    · rw [if_neg h2]
      set se := ((if sp.1 = 2 then
          encode_src_operand sm sp.2.1 symtab f.1 f.2 v.2
        else ⟨false, f.1, f.2, v.2⟩) : enc_step) with hse
      have hsec : se.d.cleanup = d.cleanup := by
        rw [hse]
        exact (enc_src_step_cleanup _ _ _ _ _ _ _).trans hvc
      by_cases h4 : se.flag = true
      · rw [if_pos h4]
        exact hsec
      · rw [if_neg h4]
        set de := ((if 1 ≤ sp.1 then
            encode_dst_operand dm (if sp.1 = 2 then sp.2.2 else sp.2.1)
              symtab se.IC se.image se.d
          else ⟨false, se.IC, se.image, se.d⟩) : enc_step) with hde
        have hdec : de.d.cleanup = d.cleanup := by
          rw [hde]
          exact (enc_dst_step_cleanup _ _ _ _ _ _ _).trans hsec
        by_cases h5 : de.flag = true
        · rw [if_pos h5]
          exact hdec
        · rw [if_neg h5]
          exact hdec

lemma data_vals_loop_spec (fuel : Nat) : ∀ (p : List Char) (e lastc : Bool)
    (DC IC : Int) (img : List data_word) (d : Diag),
    DC ≤ (data_vals_loop fuel p e lastc DC IC img d).2.1 ∧
    (data_vals_loop fuel p e lastc DC IC img d).2.2.2.1.cleanup =
      d.cleanup := by
  induction fuel with
  | zero =>
    intro p e lastc DC IC img d
    simp [data_vals_loop]
  | succ fuel ih =>
    intro p e lastc DC IC img d
    unfold data_vals_loop
    cases hsw : skip_ws p with
    | nil => simp
    | cons c rest =>
      by_cases he : e
      · simp only [he, if_true]
        by_cases hcomma : c = ','
        · simp [hcomma, Diag.pushFuncs]
        · simp only [hcomma, if_false]
          cases hst : strtol10 (c :: rest) with
          | none => simp [Diag.pushFuncs]
          | some pr =>
            obtain ⟨value, after⟩ := pr
            simp only
            by_cases hrange : in_data_range value
            · rw [if_neg (by simp [hrange])]
              have h := ih after false lastc (DC + 1) IC
                (img ++ [create_data_word value (DC + IC)]) d
              exact ⟨by omega, h.2⟩
            · simp [hrange, Diag.pushFuncs]
      · simp only [he, if_false]
        by_cases hcomma : c = ','
        · simp only [hcomma, not_true_eq_false, if_false]
          exact ih rest true true DC IC img d
        · simp [hcomma, Diag.pushFuncs]

lemma string_chars_words_DC (content : List Char) : ∀ (DC IC : Int)
    (img : List data_word),
    DC ≤ (string_chars_words content DC IC img).1 := by
  induction content with
  | nil =>
    intro DC IC img
    simp [string_chars_words]
  | cons c rest ih =>
    intro DC IC img
    unfold string_chars_words
    have h := ih (DC + 1) IC (img ++ [create_data_word (c.toNat : Int) (DC + IC)])
    omega

lemma mat_vals_loop_cleanup (fuel : Nat) : ∀ (p : List Char) (e : Bool)
    (produced total DC IC : Int) (img : List data_word) (d : Diag),
    (mat_vals_loop fuel p e produced total DC IC img d).2.2.2.2.cleanup =
      d.cleanup := by
  induction fuel with
  | zero =>
    intro p e produced total DC IC img d
    simp [mat_vals_loop]
  | succ fuel ih =>
    intro p e produced total DC IC img d
    unfold mat_vals_loop
    cases hsw : skip_ws p with
    | nil => simp
    | cons c rest =>
      by_cases he : e
      · simp only [he, if_true]
        by_cases hcomma : c = ','
        · simp [hcomma, Diag.pushFuncs]
        · simp only [hcomma, if_false]
          cases hst : strtol10 (c :: rest) with
          | none => simp [Diag.pushFuncs]
          | some pr =>
            obtain ⟨value, after⟩ := pr
            simp only
            by_cases hrange : in_data_range value
            · rw [if_neg (by simp [hrange])]
              by_cases htot : total ≤ produced
              · simp [htot, Diag.pushFuncs]
              · rw [if_neg htot]
                exact ih after false (produced + 1) total (DC + 1) IC
                  (img ++ [create_data_word value (DC + IC)]) d
            · simp [hrange, Diag.pushFuncs]
      · simp only [he, if_false]
        by_cases hcomma : c = ','
        · simp only [hcomma, if_true]
          by_cases hlook : skip_ws rest = []
          · simp [hlook, Diag.pushFuncs]
          · simp only [hlook, if_false]
            exact ih rest true produced total DC IC img d
        · simp [hcomma, Diag.pushFuncs]

lemma process_data_directive_spec (line : List Char) (DC : Int)
    (dataImg : List data_word) (IC : Int) (d : Diag) :
    DC ≤ (process_data_directive_at line DC dataImg IC d).2.1 ∧
    (process_data_directive_at line DC dataImg IC d).2.2.2.cleanup =
      d.cleanup := by
  unfold process_data_directive_at
  cases hs : strstr (strip_inline_comment line) ['.', 'd', 'a', 't', 'a'] with
  | none => exact ⟨le_refl DC, rfl⟩
  | some tail =>
    simp only
    rcases hl : data_vals_loop ((tail.drop 5).length + 1) (tail.drop 5)
        true false DC IC dataImg d with ⟨rc, DC', img', d', ev, lc⟩
    have hspec := data_vals_loop_spec ((tail.drop 5).length + 1) (tail.drop 5)
      true false DC IC dataImg d
    rw [hl] at hspec
    simp only at hspec
    split
    · exact ⟨hspec.1, hspec.2⟩
    · split
      · exact ⟨hspec.1, by simpa [Diag.pushFuncs] using hspec.2⟩
      · exact ⟨hspec.1, hspec.2⟩

lemma process_string_directive_spec (line : List Char) (DC : Int)
    (dataImg : List data_word) (IC : Int) (d : Diag) :
    DC ≤ (process_string_directive_at line DC dataImg IC d).2.1 ∧
    (process_string_directive_at line DC dataImg IC d).2.2.2.cleanup =
      d.cleanup := by
  unfold process_string_directive_at
  cases hs : strstr (strip_inline_comment line)
      ['.', 's', 't', 'r', 'i', 'n', 'g'] with
  | none => exact ⟨le_refl DC, rfl⟩
  | some tail =>
    simp only
    split
    · rename_i p1 heq
      have hr := string_chars_words_DC (p1.takeWhile (fun c => c ≠ '"'))
        DC IC dataImg
      split
      · exact ⟨by dsimp only; omega, rfl⟩
      · exact ⟨hr, by simp [Diag.pushFuncs]⟩
    · exact ⟨le_refl DC, by simp [Diag.pushFuncs]⟩

lemma process_matrix_directive_spec (line : List Char) (DC : Int)
    (dataImg : List data_word) (IC : Int) (d : Diag) :
    DC ≤ (process_matrix_directive_at line DC dataImg IC d).2.1 ∧
    (process_matrix_directive_at line DC dataImg IC d).2.2.2.cleanup =
      d.cleanup := by
  unfold process_matrix_directive_at
  cases hs : strstr (strip_inline_comment line) ['.', 'm', 'a', 't'] with
  | none => exact ⟨le_refl DC, rfl⟩
  | some tail =>
    simp only
    cases h1 : parse_bracketed_pos_int (skip_ws (tail.drop 4)) with
    | none => exact ⟨le_refl DC, by simp [Diag.pushFuncs]⟩
    | some pr1 =>
      obtain ⟨rows, p1⟩ := pr1
      simp only
      cases h2 : parse_bracketed_pos_int p1 with
      | none => exact ⟨le_refl DC, by simp [Diag.pushFuncs]⟩
      | some pr2 =>
        obtain ⟨cols, p2⟩ := pr2
        simp only
        split
        · exact ⟨le_refl DC, by simp [Diag.pushFuncs]⟩
        · rcases hr : (if ¬ skip_ws p2 = [] then
              mat_vals_loop ((skip_ws p2).length + 1) (skip_ws p2) true 0
                (rows * cols) DC IC dataImg d
            else (0, 0, DC, dataImg, d)) with ⟨rc, produced, DC', img', d'⟩
          have hDC : DC ≤ DC' ∧ d'.cleanup = d.cleanup := by
            by_cases hp3 : skip_ws p2 = []
            · rw [if_neg (by simpa using hp3)] at hr
              have h5 : DC = DC' ∧ d = d' := by
                simp only [Prod.mk.injEq] at hr
                exact ⟨hr.2.2.1, hr.2.2.2.2⟩
              exact ⟨le_of_eq h5.1, (congrArg Diag.cleanup h5.2).symm⟩
            · rw [if_pos (by simpa using hp3)] at hr
              have hs1 := (mat_vals_loop_spec ((skip_ws p2).length + 1)
                (skip_ws p2) true 0 (rows * cols) DC IC dataImg d).2.2.2.2
              have hs2 := mat_vals_loop_cleanup ((skip_ws p2).length + 1)
                (skip_ws p2) true 0 (rows * cols) DC IC dataImg d
              rw [hr] at hs1 hs2
              exact ⟨hs1, hs2⟩
          dsimp only
          split
          · exact hDC
          · rcases hf : mat_fill_zeros (rows * cols - produced).toNat DC' IC
                img' with ⟨DC2, img2⟩
            have hfs := mat_fill_zeros_spec (rows * cols - produced).toNat
              DC' IC img'
            rw [hf] at hfs
            dsimp only at hfs
            exact ⟨by dsimp only; omega, hDC.2⟩

lemma process_data_string_mat_spec (cmd : CommandsTable) (line : List Char)
    (DC : Int) (dataImg : List data_word) (IC : Int) (d : Diag) :
    DC ≤ (process_data_string_mat cmd line DC dataImg IC d).2.1 ∧
    (process_data_string_mat cmd line DC dataImg IC d).2.2.2.cleanup =
      d.cleanup := by
  cases cmd <;>
    first
      | exact process_data_directive_spec line DC dataImg IC d
      | exact process_string_directive_spec line DC dataImg IC d
      | exact process_matrix_directive_spec line DC dataImg IC d
      | exact ⟨le_refl DC, rfl⟩

lemma validate_label_name_cleanup (n : List Char) (d : Diag) :
    ∃ t, (validate_label_name n d).2.cleanup = d.cleanup ++ t := by
  simp only [validate_label_name]
  repeat' split
  all_goals
    first
      | exact ⟨[], (List.append_nil _).symm⟩
      | exact ⟨[ECode.AS001], rfl⟩
      | exact ⟨[ECode.AS015], rfl⟩
      | exact ⟨[ECode.AS016], rfl⟩

lemma is_label_definition_cleanup (p : List Char) (d : Diag) :
    ∃ t, (is_label_definition p d).2.2.cleanup = d.cleanup ++ t := by
  simp only [is_label_definition]
  repeat' split
  all_goals
    first
      | exact ⟨[], (List.append_nil _).symm⟩
      | exact ⟨[ECode.AS001], rfl⟩
      | exact validate_label_name_cleanup _ d

lemma get_command_type_cleanup (l : List Char) (d : Diag) :
    ∃ t, (get_command_type l d).2.cleanup = d.cleanup ++ t := by
  simp only [get_command_type]
  repeat' split
  all_goals
    first
      | exact ⟨[], (List.append_nil _).symm⟩
      | exact ⟨[ECode.AS002], rfl⟩
      | exact ⟨[ECode.AS004], rfl⟩

lemma handle_directive_argument_cleanup (b : Bool) (arg : List Char)
    (ents : List entry_node) (exts : List extern_node) (d : Diag) :
    ∃ t, (handle_directive_argument b arg ents exts d).2.2.cleanup =
      d.cleanup ++ t := by
  simp only [handle_directive_argument]
  repeat' split
  all_goals
    first
      | exact ⟨[], (List.append_nil _).symm⟩
      | exact ⟨[if b = true then ECode.AS011 else ECode.AS012], rfl⟩
      | exact ⟨[ECode.AS011], rfl⟩
      | exact ⟨[ECode.AS012], rfl⟩
      | exact ⟨[ECode.AS013], rfl⟩
      | exact ⟨[ECode.AS014], rfl⟩
      | exact ⟨[ECode.AS015], rfl⟩

/-- The running size invariant of the first-pass loop: IC stays at or above
its initial value, DC stays non-negative, and either `IC + DC` is still
below `OB_SUM_LIMIT` or `check_sum_limit` has already fired — recording
AS_SUM_GE_LIMIT in the `cleanup.c` unit and setting `had_error`. -/
def SumInv (s : fp_state) : Prop :=
  IC_INIT_VALUE ≤ s.IC ∧ 0 ≤ s.DC ∧
    (s.IC + s.DC < OB_SUM_LIMIT ∨
      (ECode.AS_SUM_GE_LIMIT ∈ s.d.cleanup ∧ s.hadError = true))

lemma cleanup_ext_push_if (c : Prop) [Decidable c] (dd : Diag) (x : ECode) :
    ∃ t, (if c then dd.pushCleanup x else dd).cleanup = dd.cleanup ++ t := by
  split
  · exact ⟨[x], rfl⟩
  · exact ⟨[], (List.append_nil _).symm⟩

lemma if_true_escalates (c c' : Prop) [Decidable c] [Decidable c'] (b : Bool)
    (h : b = true) : (if c then true else if c' then true else b) = true := by
  split
  · rfl
  · split
    · rfl
    · exact h

lemma pl_dispatch_inv (cmd : CommandsTable) (cp token_end : List Char)
    (symtab2 : List symbol_entry) (he3 : Bool) (d4 : Diag) (s : fp_state)
    (hIC : IC_INIT_VALUE ≤ s.IC) (hDC : 0 ≤ s.DC)
    (hext : ∃ t, d4.cleanup = s.d.cleanup ++ t)
    (hhe : s.hadError = true → he3 = true)
    (hdisj : s.IC + s.DC < OB_SUM_LIMIT ∨
      (ECode.AS_SUM_GE_LIMIT ∈ s.d.cleanup ∧ s.hadError = true)) :
    SumInv (pl_dispatch cmd cp token_end symtab2 he3 d4 s) := by
  cases cmd
  case ENTRY =>
    simp only [pl_dispatch]
    refine ⟨hIC, hDC, ?_⟩
    rcases hdisj with hlt | ⟨hm, he⟩
    · exact Or.inl hlt
    · refine Or.inr ⟨?_, hhe he⟩
      exact mem_of_cleanup_ext (cleanup_ext_trans hext
        (handle_directive_argument_cleanup _ _ _ _ _)) hm
  case EXTERN =>
    simp only [pl_dispatch]
    refine ⟨hIC, hDC, ?_⟩
    rcases hdisj with hlt | ⟨hm, he⟩
    · exact Or.inl hlt
    · refine Or.inr ⟨?_, hhe he⟩
      exact mem_of_cleanup_ext (cleanup_ext_trans hext
        (handle_directive_argument_cleanup _ _ _ _ _)) hm
  case UNDEFINED =>
    simp only [pl_dispatch]
    refine ⟨hIC, hDC, ?_⟩
    rcases hdisj with hlt | ⟨hm, he⟩
    · exact Or.inl hlt
    · exact Or.inr ⟨mem_of_cleanup_ext hext hm, hhe he⟩
  case DATA =>
    simp only [pl_dispatch]
    have hspec := process_data_string_mat_spec CommandsTable.DATA cp s.DC
      s.dataImg s.IC d4
    refine ⟨hIC, le_trans hDC hspec.1, ?_⟩
    unfold check_sum_limit
    split
    · rename_i hlt
      exact Or.inl hlt
    · exact Or.inr ⟨by simp [Diag.pushCleanup], by simp⟩
  case STRING =>
    simp only [pl_dispatch]
    have hspec := process_data_string_mat_spec CommandsTable.STRING cp s.DC
      s.dataImg s.IC d4
    refine ⟨hIC, le_trans hDC hspec.1, ?_⟩
    unfold check_sum_limit
    split
    · rename_i hlt
      exact Or.inl hlt
    · exact Or.inr ⟨by simp [Diag.pushCleanup], by simp⟩
  case MATRIX =>
    simp only [pl_dispatch]
    have hspec := process_data_string_mat_spec CommandsTable.MATRIX cp s.DC
      s.dataImg s.IC d4
    refine ⟨hIC, le_trans hDC hspec.1, ?_⟩
    unfold check_sum_limit
    split
    · rename_i hlt
      exact Or.inl hlt
    · exact Or.inr ⟨by simp [Diag.pushCleanup], by simp⟩
  all_goals
    simp only [pl_dispatch]
    refine ⟨le_trans hIC (process_commands_words_IC _ _ _ _ _ _), hDC, ?_⟩
    unfold check_sum_limit
    split
    · rename_i hlt
      exact Or.inl hlt
    · exact Or.inr ⟨by simp [Diag.pushCleanup], by simp⟩

lemma pl_classified_inv (cmd : CommandsTable) (cp token_end : List Char)
    (has_label : Bool) (label1 : Option (List Char)) (he3 : Bool) (d4 : Diag)
    (s : fp_state)
    (hIC : IC_INIT_VALUE ≤ s.IC) (hDC : 0 ≤ s.DC)
    (hext : ∃ t, d4.cleanup = s.d.cleanup ++ t)
    (hhe : s.hadError = true → he3 = true)
    (hdisj : s.IC + s.DC < OB_SUM_LIMIT ∨
      (ECode.AS_SUM_GE_LIMIT ∈ s.d.cleanup ∧ s.hadError = true)) :
    SumInv (pl_classified cmd cp token_end has_label label1 he3 d4 s) := by
  unfold pl_classified
  by_cases hc : cmd = CommandsTable.UNDEFINED
  · rw [if_pos hc]
    refine ⟨hIC, hDC, ?_⟩
    rcases hdisj with hlt | ⟨hm, he⟩
    · exact Or.inl hlt
    · refine Or.inr ⟨?_, rfl⟩
      refine mem_of_cleanup_ext ?_ hm
      exact cleanup_ext_trans hext ⟨[ECode.AS002], rfl⟩
  · rw [if_neg hc]
    exact pl_dispatch_inv cmd cp token_end _ he3 d4 s hIC hDC hext hhe hdisj

lemma processLine_inv (line : List Char) (s : fp_state) (h : SumInv s) :
    SumInv (processLine line s) := by
  obtain ⟨hIC, hDC, hdisj⟩ := h
  simp only [processLine]
  by_cases h0 : line.dropWhile c_isspace = [] ∨
      (line.dropWhile c_isspace).head? = some ';'
  · rw [if_pos h0]
    exact ⟨hIC, hDC, hdisj⟩
  · rw [if_neg h0]
    apply pl_classified_inv
    · exact hIC
    · exact hDC
    · refine cleanup_ext_trans ?_ (get_command_type_cleanup _ _)
      refine cleanup_ext_trans ?_ (cleanup_ext_push_if _ _ _)
      exact cleanup_ext_trans (is_label_definition_cleanup _ _)
        (cleanup_ext_push_if _ _ _)
    · intro hb
      exact if_true_escalates _ _ _ hb
    · exact hdisj

lemma first_pass_inv (lines : List (List Char)) : ∀ (s : fp_state),
    SumInv s → SumInv (lines.foldl (fun st l => processLine l st) s) := by
  induction lines with
  | nil =>
    intro s h
    exact h
  | cons l rest ih =>
    intro s h
    exact ih _ (processLine_inv l s h)

/-- Claim C2: on every run that produces a `.ob` file,
`(IC_final - 100) + DC_final ≤ 255`; and every run that ends with
`(IC_final - 100) + DC_final > 255` has AS_SUM_GE_LIMIT recorded in the
`cleanup.c` unit (`check_sum_limit` fired), makes `first_pass` return 1 and
produces no `.ob` file. -/
theorem assembled_size_bound (lines : List (List Char)) :
    ((fp_ob (first_pass lines)).isSome = true →
      ((first_pass lines).st.IC - IC_INIT_VALUE) +
        (first_pass lines).st.DC ≤ 255) ∧
    (((first_pass lines).st.IC - IC_INIT_VALUE) +
        (first_pass lines).st.DC > 255 →
      ECode.AS_SUM_GE_LIMIT ∈ (first_pass lines).st.d.cleanup ∧
      (first_pass lines).rc = 1 ∧ fp_ob (first_pass lines) = none) := by
  have hinv := first_pass_inv lines
    ⟨IC_INIT_VALUE, 0, [], [], [], [], [], false, Diag.empty⟩
    ⟨le_refl _, le_refl _, Or.inl (by decide)⟩
  have e1 : IC_INIT_VALUE = 100 := rfl
  have e2 : OB_SUM_LIMIT = 255 := rfl
  unfold fp_ob first_pass
  unfold first_pass at hinv
  set S := lines.foldl (fun st l => processLine l st)
    ⟨IC_INIT_VALUE, 0, [], [], [], [], [], false, Diag.empty⟩ with hS
  obtain ⟨hIC, hDC, hdisj⟩ := hinv
  by_cases hg : S.d.cleanup = [] ∧ S.hadError = false
  · rw [if_pos hg]
    constructor
    · intro _
      show (S.IC - IC_INIT_VALUE) + S.DC ≤ 255
      rcases hdisj with hlt | ⟨hm, he⟩
      · rw [e2] at hlt
        rw [e1]
        omega
      · rw [hg.1] at hm
        exact absurd hm (List.not_mem_nil _)
    · intro hgt
      have hgt2 : (S.IC - IC_INIT_VALUE) + S.DC > 255 := hgt
      exfalso
      rcases hdisj with hlt | ⟨hm, he⟩
      · rw [e2] at hlt
        rw [e1] at hgt2
        omega
      · rw [hg.1] at hm
        exact absurd hm (List.not_mem_nil _)
  · rw [if_neg hg]
    constructor
    · intro hsome
      simp at hsome
    · intro hgt
      have hgt2 : (S.IC - IC_INIT_VALUE) + S.DC > 255 := hgt
      rcases hdisj with hlt | ⟨hm, he⟩
      · exfalso
        rw [e2] at hlt
        rw [e1] at hgt2
        omega
      · exact ⟨hm, rfl, rfl⟩

/-- Witness for C2 on the program `stop`: the run produces a `.ob` and its
size satisfies the bound. -/
theorem assembled_size_bound_witness :
    ((first_pass [['s', 't', 'o', 'p']]).st.IC - IC_INIT_VALUE) +
      (first_pass [['s', 't', 'o', 'p']]).st.DC ≤ 255 :=
  (assembled_size_bound [['s', 't', 'o', 'p']]).1 (by decide)
